import Mathlib

/-!
# Verification of the bookmark-manager domain core

This file gives a shallow embedding, in Lean 4, of the domain-consistency core
of a bookmark-management backend (URL normalization, tag merging, collection
lifecycle, permission checks, bulk operations, duplicate detection), together
with theorems settling a list of claims about that core.

Conventions of the embedding:
* The relational store is modelled as an explicit in-memory state (`Db`): lists
  of rows with numeric ids, threaded through every operation.  `prisma`
  query combinators (`findFirst`, `findMany`, `updateMany`, `deleteMany`,
  `createMany` with `skipDuplicates`) become list filters, maps and folds with
  the same `where`-clause semantics.
* JavaScript string builtins used by the source (`toLowerCase`, `endsWith`,
  `split`, `join`, `replace(/\/+$/,'')`, `decodeURIComponent`,
  `encodeURIComponent`) are modelled as executable functions on `List Char`.
  Case mapping is modelled on the ASCII fragment; percent-coding uses the
  real UTF-8 byte encoding with upper-case hex, and decoding fails (like
  `decodeURIComponent` throwing `URIError`) on malformed escapes.
* The WHATWG `URL` value is modelled as a record of its components
  (`Url`); parsing and re-serialization between two calls of the normalizer
  are abstracted: the normalizer maps records to records, and
  `serializeUrl` gives the string form used as the stored `normalizedUrl`.
-/

namespace Booky

/-! ## Percent-coding model (`decodeURIComponent` / `encodeURIComponent`) -/

/-- Value of a hexadecimal digit character, `none` if not a hex digit. -/
def hexVal (c : Char) : Option Nat :=
  let n := c.toNat
  if 48 ≤ n ∧ n ≤ 57 then some (n - 48)
  else if 65 ≤ n ∧ n ≤ 70 then some (n - 55)
  else if 97 ≤ n ∧ n ≤ 102 then some (n - 87)
  else none

/-- Upper-case hexadecimal digit for `n < 16` (as produced by `encodeURIComponent`). -/
def hexDigit (n : Nat) : Char :=
  (("0123456789ABCDEF".data).getD n '0')

/-- The characters `encodeURIComponent` leaves unescaped:
`A-Z a-z 0-9 - _ . ! ~ * ' ( )`. -/
def isUnreservedChar (c : Char) : Bool :=
  ('A' ≤ c && c ≤ 'Z') || ('a' ≤ c && c ≤ 'z') || ('0' ≤ c && c ≤ '9') ||
  c == '-' || c == '_' || c == '.' || c == '!' || c == '~' || c == '*' ||
  c == '\'' || c == '(' || c == ')'

/-- UTF-8 bytes of a unicode scalar value. -/
def utf8Bytes (n : Nat) : List Nat :=
  if n < 0x80 then [n]
  else if n < 0x800 then [0xC0 + n / 64, 0x80 + n % 64]
  else if n < 0x10000 then [0xE0 + n / 4096, 0x80 + (n / 64) % 64, 0x80 + n % 64]
  else [0xF0 + n / 262144, 0x80 + (n / 4096) % 64, 0x80 + (n / 64) % 64, 0x80 + n % 64]

/-- A byte rendered as a percent escape `%XY` with upper-case hex. -/
def pctByte (b : Nat) : List Char :=
  ['%', hexDigit (b / 16), hexDigit (b % 16)]

/-- `encodeURIComponent` on a single character. -/
def encodeChar (c : Char) : List Char :=
  if isUnreservedChar c then [c] else ((utf8Bytes c.toNat).map pctByte).flatten

/-- `encodeURIComponent` on a string (as a character list). -/
def encodeSeg (s : List Char) : List Char :=
  (s.map encodeChar).flatten

/-- A lexical token of a percent-encoded string: either a literal character or
the byte of one `%XY` escape. -/
inductive PctTok where
  | chr (c : Char)
  | byt (b : Nat)
  deriving DecidableEq, Repr

/-- Tokenize a percent-encoded string; fails (like `decodeURIComponent` throwing)
on a `%` not followed by two hex digits. -/
def pctToks : List Char → Option (List PctTok)
  | [] => some []
  | c :: rest =>
    if c = '%' then
      match rest with
      | h :: l :: rest' =>
        match hexVal h, hexVal l with
        | some hv, some lv => (pctToks rest').map (PctTok.byt (16 * hv + lv) :: ·)
        | _, _ => none
      | _ => none
    else (pctToks rest).map (PctTok.chr c :: ·)

/-- `true` for a UTF-8 continuation byte `10xxxxxx`. -/
def isContByte (b : Nat) : Bool := 0x80 ≤ b && b ≤ 0xBF

/-- Decode the token stream: literal characters pass through, runs of escape
bytes are decoded as (strict) UTF-8; invalid sequences fail. -/
def pctDecodeToks : List PctTok → Option (List Char)
  | [] => some []
  | .chr c :: ts => (pctDecodeToks ts).map (c :: ·)
  | .byt b :: ts =>
    if b < 0x80 then
      (pctDecodeToks ts).map (Char.ofNat b :: ·)
    else if 0xC2 ≤ b && b ≤ 0xDF then
      match ts with
      | .byt b2 :: ts' =>
        if isContByte b2 then
          (pctDecodeToks ts').map (Char.ofNat ((b - 0xC0) * 64 + (b2 - 0x80)) :: ·)
        else none
      | _ => none
    else if 0xE0 ≤ b && b ≤ 0xEF then
      match ts with
      | .byt b2 :: .byt b3 :: ts' =>
        if isContByte b2 && isContByte b3 &&
            (b ≠ 0xE0 || 0xA0 ≤ b2) && (b ≠ 0xED || b2 ≤ 0x9F) then
          (pctDecodeToks ts').map
            (Char.ofNat ((b - 0xE0) * 4096 + (b2 - 0x80) * 64 + (b3 - 0x80)) :: ·)
        else none
      | _ => none
    else if 0xF0 ≤ b && b ≤ 0xF4 then
      match ts with
      | .byt b2 :: .byt b3 :: .byt b4 :: ts' =>
        if isContByte b2 && isContByte b3 && isContByte b4 &&
            (b ≠ 0xF0 || 0x90 ≤ b2) && (b ≠ 0xF4 || b2 ≤ 0x8F) then
          (pctDecodeToks ts').map
            (Char.ofNat ((b - 0xF0) * 262144 + (b2 - 0x80) * 4096 +
              (b3 - 0x80) * 64 + (b4 - 0x80)) :: ·)
        else none
      | _ => none
    else none

/-- Model of `decodeURIComponent`: `none` models the thrown `URIError`. -/
def decodeChars (l : List Char) : Option (List Char) :=
  (pctToks l).bind pctDecodeToks

/-! ## JavaScript string helpers used by the normalizer -/

/-- ASCII lower-casing of one character (model of the relevant fragment of
`String.prototype.toLowerCase`). -/
def jsLowerChar (c : Char) : Char := c.toLower

/-- ASCII lower-casing of a string. -/
def jsLower (s : String) : String := String.mk (s.data.map jsLowerChar)

/-- `str.split('/')` on character lists. -/
def splitSlash : List Char → List (List Char)
  | [] => [[]]
  | c :: rest =>
    if c = '/' then [] :: splitSlash rest
    else
      match splitSlash rest with
      | [] => [[c]]
      | s :: ss => (c :: s) :: ss

/-- `arr.join('/')` on character lists. -/
def joinSlash : List (List Char) → List Char
  | [] => []
  | [s] => s
  | s :: ss => s ++ '/' :: joinSlash ss

/-- `str.replace(/\/+$/, '')`: remove the maximal run of trailing slashes. -/
def dropTrailingSlashes (l : List Char) : List Char :=
  (l.reverse.dropWhile (· == '/')).reverse

/-! ## The URL normalizer (`url-normalizer.ts`) -/

/-- The fixed tracking-parameter list of the source (`TRACKING_PARAMS`). -/
def TRACKING_PARAMS : List String :=
  ["utm_source", "utm_medium", "utm_campaign", "utm_term", "utm_content",
   "utm_id", "utm_source_platform", "utm_creative_format", "utm_marketing_tactic",
   "fbclid", "fb_action_ids", "fb_action_types", "fb_source", "fb_ref",
   "gclid", "gclsrc", "dclid", "msclkid", "twclid", "mc_cid", "mc_eid",
   "hsa_acc", "hsa_cam", "hsa_grp", "hsa_ad", "hsa_src", "hsa_tgt", "hsa_kw",
   "hsa_mt", "hsa_net", "hsa_ver", "ref", "ref_src", "ref_url", "_ga", "_gl",
   "yclid", "wickedid", "igshid", "s_kwcid", "si", "spm", "pvid", "scm",
   "algo_pvid", "algo_expid", "_hsenc", "_hsmi", "mkt_tok"]

/-- `p.data.isPrefixOf`-style prefix test on strings. -/
def strHasPrefix (p s : String) : Bool := p.data.isPrefixOf s.data

/-- The tracking test applied to a query-parameter key: member of the fixed
list, or prefixed by `utm_` / `fb_` / `hsa_` (all case-insensitive). -/
def isTrackingKey (k : String) : Bool :=
  let lk := jsLower k
  TRACKING_PARAMS.contains lk || strHasPrefix "utm_" lk ||
    strHasPrefix "fb_" lk || strHasPrefix "hsa_" lk

/-- Step 4 of `normalizeURL`: delete every query pair with a tracking key. -/
def removeTracking (q : List (String × String)) : List (String × String) :=
  q.filter (fun p => !(isTrackingKey p.1))

/-- `params.getAll(key)`: all values bound to `key`, in original order. -/
def getAllVals (k : String) (q : List (String × String)) : List String :=
  (q.filter (fun p => p.1 == k)).map (·.2)

/-- Step 5 of `normalizeURL`: `Array.from(params.keys()).sort()` (one key per
entry, duplicates included) and then, for each key in sorted order, append all
of `getAll(key)`.  Note a repeated key is visited once per occurrence. -/
def sortQuery (q : List (String × String)) : List (String × String) :=
  (List.insertionSort (· ≤ ·) (q.map (·.1))).flatMap
    (fun k => (getAllVals k q).map (fun v => (k, v)))

/-- The WHATWG `pathname` setter on an http(s) URL, restricted to the values
the normalizer assigns (the empty string, or a string beginning with `/`):
the setter re-parses the value, and since a special URL's path cannot be
empty, assigning the empty string re-normalizes the path to the root `/`;
any other such value is stored as given. -/
def pathnameSet (v : List Char) : List Char :=
  if v = [] then ['/'] else v

/-- Step 6 of `normalizeURL` (`pathname.length > 1 && pathname.endsWith('/')`
guarding `pathname = pathname.replace(/\/+$/, '')`); the assignment goes
through the `pathname` setter. -/
def stripPathL (l : List Char) : List Char :=
  if 1 < l.length ∧ l.getLast? = some '/' then pathnameSet (dropTrailingSlashes l)
  else l

/-- Step 7 of `normalizeURL`: decode the whole path, re-encode each
slash-separated segment and assign the result through the `pathname` setter;
on decode failure the `catch` keeps the path unchanged (no assignment). -/
def normalizePathL (l : List Char) : List Char :=
  match decodeChars l with
  | some d => pathnameSet (joinSlash ((splitSlash d).map encodeSeg))
  | none => l

/-- A parsed URL, as the record of components the normalizer manipulates.
`scheme` carries the trailing colon (`"https:"`), matching `URL.protocol`;
`port` is the string form (`""` when absent), matching `URL.port`. -/
structure Url where
  scheme : String
  host : String
  port : String
  path : String
  query : List (String × String)
  fragment : String
  deriving DecidableEq, Repr

/-- Step 3 of `normalizeURL`: clear the port when it is the scheme's default
(`80` on http, `443` on https). -/
def normPort (scheme port : String) : String :=
  if (scheme == "http:" && port == "80") || (scheme == "https:" && port == "443")
  then "" else port

/-- Steps 6–7 of `normalizeURL` on the path string. -/
def normPath (p : String) : String :=
  String.mk (normalizePathL (stripPathL p.data))

/-- Steps 4–5 of `normalizeURL` on the query pairs. -/
def normQuery (q : List (String × String)) : List (String × String) :=
  sortQuery (removeTracking q)

/-- `normalizeURL` of `url-normalizer.ts` on the component record:
(1–2) lower-case host, (3) drop default ports, (4) remove tracking
parameters, (5) sort remaining query keys, (6) strip trailing slashes from
the path (except a root path), (7) decode-then-re-encode path segments,
(8) drop the fragment. -/
def normalizeURL (u : Url) : Url :=
  { scheme := u.scheme
    host := jsLower u.host
    port := normPort u.scheme u.port
    path := normPath u.path
    query := normQuery u.query
    fragment := "" }

/-- Query-string form of the (already percent-free, in our uses) pairs. -/
def queryString (q : List (String × String)) : String :=
  match q with
  | [] => ""
  | _ => "?" ++ String.intercalate "&" (q.map (fun p => p.1 ++ "=" ++ p.2))

/-- `URL.toString()` on the component record (fragment of the WHATWG
serializer sufficient for the stored `normalizedUrl`). -/
def serializeUrl (u : Url) : String :=
  u.scheme ++ "//" ++ u.host ++ (if u.port == "" then "" else ":" ++ u.port) ++
    u.path ++ queryString u.query ++ u.fragment

/-- `extractDomain`: lower-cased host with a single leading `www.` stripped. -/
def extractDomain (u : Url) : String :=
  let d := jsLower u.host
  if strHasPrefix "www." d then String.mk (d.data.drop 4) else d

/-! ## Lemmas about the normalizer's string transformations -/

theorem toNat_ofNat_of_valid {n : Nat} (h : n.isValidChar) :
    (Char.ofNat n).toNat = n := by
  rw [Char.ofNat, dif_pos h]; rfl

theorem jsLowerChar_idem (c : Char) : jsLowerChar (jsLowerChar c) = jsLowerChar c := by
  unfold jsLowerChar Char.toLower
  by_cases h : c.toNat ≥ 65 ∧ c.toNat ≤ 90
  · rw [if_pos h]
    have hv : (c.toNat + 32).isValidChar := Or.inl (by omega)
    have ht : (Char.ofNat (c.toNat + 32)).toNat = c.toNat + 32 := toNat_ofNat_of_valid hv
    rw [if_neg (by rw [ht]; omega)]
  · rw [if_neg h, if_neg h]

theorem jsLower_idem (s : String) : jsLower (jsLower s) = jsLower s := by
  cases s with
  | mk d => simp [jsLower, List.map_map, Function.comp_def, jsLowerChar_idem]

theorem encodeChar_unreserved {c : Char} (h : isUnreservedChar c = true) :
    encodeChar c = [c] := by
  simp [encodeChar, h]

theorem encodeSeg_eq_self {s : List Char} (h : ∀ c ∈ s, isUnreservedChar c = true) :
    encodeSeg s = s := by
  induction s with
  | nil => rfl
  | cons c t ih =>
    simp only [encodeSeg, List.map_cons, List.flatten_cons,
      encodeChar_unreserved (h c (List.mem_cons_self c t))]
    simpa [encodeSeg] using ih (fun x hx => h x (List.mem_cons_of_mem c hx))

theorem splitSlash_ne_nil (l : List Char) : splitSlash l ≠ [] := by
  cases l with
  | nil => simp [splitSlash]
  | cons c rest =>
    by_cases h : c = '/'
    · simp [splitSlash, h]
    · simp only [splitSlash, if_neg h]
      cases splitSlash rest <;> simp

theorem mem_of_mem_splitSlash {l : List Char} {s : List Char} {c : Char}
    (hs : s ∈ splitSlash l) (hc : c ∈ s) : c ∈ l ∧ c ≠ '/' := by
  induction l generalizing s with
  | nil =>
    simp only [splitSlash, List.mem_singleton] at hs
    subst hs; cases hc
  | cons a rest ih =>
    by_cases ha : a = '/'
    · simp only [splitSlash, if_pos ha, List.mem_cons] at hs
      rcases hs with h1 | h2
      · subst h1; cases hc
      · obtain ⟨h3, h4⟩ := ih h2 hc
        exact ⟨List.mem_cons_of_mem a h3, h4⟩
    · simp only [splitSlash, if_neg ha] at hs
      rcases hrest : splitSlash rest with _ | ⟨s0, ss⟩
      · exact absurd hrest (splitSlash_ne_nil rest)
      · rw [hrest, List.mem_cons] at hs
        rcases hs with h1 | h2
        · subst h1
          rcases List.mem_cons.mp hc with h3 | h4
          · subst h3; exact ⟨List.mem_cons_self c rest, ha⟩
          · obtain ⟨h5, h6⟩ := ih (by rw [hrest]; exact List.mem_cons_self s0 ss) h4
            exact ⟨List.mem_cons_of_mem a h5, h6⟩
        · obtain ⟨h5, h6⟩ := ih (by rw [hrest]; exact List.mem_cons_of_mem s0 h2) hc
          exact ⟨List.mem_cons_of_mem a h5, h6⟩

theorem joinSlash_splitSlash (l : List Char) : joinSlash (splitSlash l) = l := by
  induction l with
  | nil => rfl
  | cons a rest ih =>
    by_cases ha : a = '/'
    · subst ha
      simp only [splitSlash, if_pos rfl]
      rcases hrest : splitSlash rest with _ | ⟨s0, ss⟩
      · exact absurd hrest (splitSlash_ne_nil rest)
      · rw [← hrest]
        show joinSlash ([] :: splitSlash rest) = '/' :: rest
        rw [hrest]
        show [] ++ '/' :: joinSlash (s0 :: ss) = '/' :: rest
        rw [← hrest, ih]
        rfl
    · simp only [splitSlash, if_neg ha]
      rcases hrest : splitSlash rest with _ | ⟨s0, ss⟩
      · exact absurd hrest (splitSlash_ne_nil rest)
      · rw [hrest] at ih
        cases ss with
        | nil =>
          show joinSlash [a :: s0] = a :: rest
          show a :: s0 = a :: rest
          simpa using ih
        | cons s1 ss' =>
          show (a :: s0) ++ '/' :: joinSlash (s1 :: ss') = a :: rest
          simpa using ih

theorem pctToks_cons_of_ne {c : Char} (rest : List Char) (hc : c ≠ '%') :
    pctToks (c :: rest) = (pctToks rest).map (PctTok.chr c :: ·) := by
  rw [pctToks.eq_def]
  exact if_neg hc

theorem pctToks_no_pct {l : List Char} (h : ∀ c ∈ l, c ≠ '%') :
    pctToks l = some (l.map PctTok.chr) := by
  induction l with
  | nil => rfl
  | cons c rest ih =>
    rw [pctToks_cons_of_ne rest (h c (List.mem_cons_self c rest)),
      ih (fun x hx => h x (List.mem_cons_of_mem c hx))]
    rfl

theorem pctDecodeToks_chrs (l : List Char) :
    pctDecodeToks (l.map PctTok.chr) = some l := by
  induction l with
  | nil => rfl
  | cons c rest ih =>
    show (pctDecodeToks (rest.map PctTok.chr)).map (c :: ·) = some (c :: rest)
    rw [ih]
    rfl

theorem decodeChars_eq_self {l : List Char} (h : ∀ c ∈ l, c ≠ '%') :
    decodeChars l = some l := by
  rw [decodeChars, pctToks_no_pct h, Option.some_bind, pctDecodeToks_chrs]

/-- On a non-empty path of unreserved characters and slashes, the
decode-then-re-encode step of the normalizer is the identity. -/
theorem normalizePathL_eq_self {l : List Char} (hne : l ≠ [])
    (h : ∀ c ∈ l, isUnreservedChar c = true ∨ c = '/') :
    normalizePathL l = l := by
  have hnp : ∀ c ∈ l, c ≠ '%' := by
    intro c hc heq
    rcases h c hc with h1 | h2
    · rw [heq] at h1; simp [isUnreservedChar] at h1
    · rw [heq] at h2; simp at h2
  rw [normalizePathL, decodeChars_eq_self hnp]
  show pathnameSet (joinSlash ((splitSlash l).map encodeSeg)) = l
  have hmap : (splitSlash l).map encodeSeg = splitSlash l := by
    apply List.map_congr_left ?_ |>.trans (List.map_id _)
    intro s hs
    apply encodeSeg_eq_self
    intro c hc
    obtain ⟨h1, h2⟩ := mem_of_mem_splitSlash hs hc
    rcases h c h1 with h3 | h4
    · exact h3
    · exact absurd h4 h2
  rw [hmap, joinSlash_splitSlash, pathnameSet, if_neg hne]

theorem head?_dropWhile_false {p : α → Bool} {l : List α} {a : α}
    (h : (l.dropWhile p).head? = some a) : p a = false := by
  induction l with
  | nil => simp at h
  | cons x t ih =>
    by_cases hx : p x
    · rw [List.dropWhile_cons_of_pos hx] at h; exact ih h
    · rw [List.dropWhile_cons_of_neg hx] at h
      simp only [List.head?_cons, Option.some.injEq] at h
      subst h; exact Bool.eq_false_iff.mpr hx

theorem getLast?_dropTrailingSlashes (l : List Char) :
    (dropTrailingSlashes l).getLast? ≠ some '/' := by
  rw [dropTrailingSlashes, List.getLast?_reverse]
  intro h
  have := head?_dropWhile_false h
  simp at this

theorem mem_dropTrailingSlashes {l : List Char} {c : Char}
    (h : c ∈ dropTrailingSlashes l) : c ∈ l := by
  rw [dropTrailingSlashes, List.mem_reverse] at h
  exact List.mem_reverse.mp ((List.dropWhile_sublist _).subset h)

theorem dropTrailingSlashes_of_getLast?_ne {l : List Char}
    (h : l.getLast? ≠ some '/') : dropTrailingSlashes l = l := by
  rw [dropTrailingSlashes]
  rcases hrev : l.reverse with _ | ⟨c, t⟩
  · simpa using congrArg List.reverse hrev
  · have hc : c ≠ '/' := by
      intro heq
      apply h
      rw [← List.head?_reverse, hrev, heq]
      rfl
    rw [List.dropWhile_cons_of_neg (by simpa using hc), ← hrev, List.reverse_reverse]

theorem mem_of_getLast?_slash {l : List Char} (h : l.getLast? = some '/') :
    '/' ∈ l := by
  rw [← List.head?_reverse] at h
  exact List.mem_reverse.mp (List.mem_of_mem_head? h)

theorem mem_stripPathL {l : List Char} {c : Char} (h : c ∈ stripPathL l) : c ∈ l := by
  rw [stripPathL] at h
  split at h
  · rename_i hg
    rw [pathnameSet] at h
    split at h
    · have hc : c = '/' := by simpa using h
      rw [hc]
      exact mem_of_getLast?_slash hg.2
    · exact mem_dropTrailingSlashes h
  · exact h

theorem stripPathL_idem (l : List Char) : stripPathL (stripPathL l) = stripPathL l := by
  by_cases h : 1 < l.length ∧ l.getLast? = some '/'
  · have h1 : stripPathL l = pathnameSet (dropTrailingSlashes l) := by
      rw [stripPathL, if_pos h]
    rw [h1, pathnameSet]
    split
    · rw [stripPathL, if_neg]
      rintro ⟨hlen, -⟩
      simp at hlen
    · rw [stripPathL, if_neg]
      rintro ⟨-, h2⟩
      exact getLast?_dropTrailingSlashes l h2
  · have h1 : stripPathL l = l := by rw [stripPathL, if_neg h]
    rw [h1]
    exact h1

/-- Characterization of the trailing-slash step on a real pathname (a
non-root path beginning with `/`): the whole maximal run of trailing slashes
is removed, and an all-slash path collapses to the root path `/` via the
`pathname` setter. -/
theorem stripPathL_eq (l : List Char) (hstart : l.head? = some '/')
    (hne : l ≠ ['/']) :
    stripPathL l
      = (if dropTrailingSlashes l = [] then ['/'] else dropTrailingSlashes l) := by
  rw [stripPathL]
  split
  · rw [pathnameSet]
  · rename_i hcond
    rw [Decidable.not_and_iff_or_not] at hcond
    have hlne : l ≠ [] := by
      intro he
      rw [he] at hstart
      simp at hstart
    rcases hcond with h1 | h2
    · -- length ≤ 1: with a leading slash the path must be exactly "/"
      exfalso
      rcases l with _ | ⟨a, _ | ⟨b, t⟩⟩
      · exact hlne rfl
      · apply hne
        simp only [List.head?_cons, Option.some.injEq] at hstart
        rw [hstart]
      · simp at h1
    · have hdrop : dropTrailingSlashes l = l := dropTrailingSlashes_of_getLast?_ne h2
      rw [hdrop, if_neg hlne]

/-! ## Lemmas about the query transformation -/

theorem not_tracking_of_mem_removeTracking {q : List (String × String)}
    {p : String × String} (h : p ∈ removeTracking q) : isTrackingKey p.1 = false := by
  have := List.of_mem_filter h
  simpa using this

theorem keys_nodup_removeTracking {q : List (String × String)}
    (h : (q.map Prod.fst).Nodup) : ((removeTracking q).map Prod.fst).Nodup := by
  exact h.sublist (List.Sublist.map _ (List.filter_sublist q))

theorem filter_key_singleton {q : List (String × String)} {k : String} {v : String}
    (hnd : (q.map Prod.fst).Nodup) (hmem : (k, v) ∈ q) :
    q.filter (fun p => p.1 == k) = [(k, v)] := by
  induction q with
  | nil => cases hmem
  | cons a rest ih =>
    rw [List.map_cons, List.nodup_cons] at hnd
    rcases List.mem_cons.mp hmem with h1 | h2
    · subst h1
      rw [List.filter_cons_of_pos (by simp)]
      congr 1
      rw [List.filter_eq_nil_iff]
      intro p hp hpk
      exact hnd.1 (by
        have : p.1 = k := by simpa using hpk
        rw [← this]
        exact List.mem_map.mpr ⟨p, hp, rfl⟩)
    · have hak : a.1 ≠ k := by
        intro heq
        exact hnd.1 (heq ▸ List.mem_map.mpr ⟨(k, v), h2, rfl⟩)
      rw [List.filter_cons_of_neg (by simpa using hak)]
      exact ih hnd.2 h2

theorem flatMap_congr' {l : List α} {f g : α → List β}
    (h : ∀ a ∈ l, f a = g a) : l.flatMap f = l.flatMap g := by
  induction l with
  | nil => rfl
  | cons a t ih =>
    rw [List.flatMap_cons, List.flatMap_cons, h a (List.mem_cons_self a t),
      ih (fun x hx => h x (List.mem_cons_of_mem a hx))]

theorem flatMap_contrib_map_fst {q : List (String × String)} {ks : List String}
    (h : ∀ k ∈ ks, ∃ v, q.filter (fun p => p.1 == k) = [(k, v)]) :
    ((ks.flatMap (fun k => (getAllVals k q).map (fun v => (k, v)))).map Prod.fst) = ks := by
  induction ks with
  | nil => rfl
  | cons k ks ih =>
    obtain ⟨v, hv⟩ := h k (List.mem_cons_self k ks)
    rw [List.flatMap_cons, List.map_append, getAllVals, hv]
    simp only [List.map_cons, List.map_nil]
    rw [ih (fun x hx => h x (List.mem_cons_of_mem k hx))]
    rfl

theorem flatMap_contrib_keys_eq {q : List (String × String)}
    (hnd : (q.map Prod.fst).Nodup) :
    (q.map Prod.fst).flatMap (fun k => (getAllVals k q).map (fun v => (k, v))) = q := by
  induction q with
  | nil => rfl
  | cons a rest ih =>
    rw [List.map_cons, List.nodup_cons] at hnd
    obtain ⟨ha, hr⟩ := hnd
    rw [List.map_cons, List.flatMap_cons]
    have hhead : getAllVals a.1 (a :: rest) = [a.2] := by
      rw [getAllVals, List.filter_cons_of_pos (by simp)]
      have : rest.filter (fun p => p.1 == a.1) = [] := by
        rw [List.filter_eq_nil_iff]
        intro p hp hpk
        exact ha (by
          have : p.1 = a.1 := by simpa using hpk
          rw [← this]; exact List.mem_map.mpr ⟨p, hp, rfl⟩)
      rw [this]; rfl
    rw [hhead]
    have htail : (rest.map Prod.fst).flatMap
        (fun k => (getAllVals k (a :: rest)).map (fun v => (k, v))) =
        (rest.map Prod.fst).flatMap
        (fun k => (getAllVals k rest).map (fun v => (k, v))) := by
      apply flatMap_congr'
      intro k hk
      have hak : (a.1 == k) = false := by
        simp only [beq_eq_false_iff_ne, ne_eq]
        intro heq
        exact ha (heq ▸ hk)
      rw [getAllVals, getAllVals, List.filter_cons, hak]
      simp
    rw [htail, ih hr]
    rcases a with ⟨k0, v0⟩
    rfl

theorem keys_sortQuery {q : List (String × String)} (hnd : (q.map Prod.fst).Nodup) :
    (sortQuery q).map Prod.fst = List.insertionSort (· ≤ ·) (q.map Prod.fst) := by
  rw [sortQuery]
  apply flatMap_contrib_map_fst
  intro k hk
  have hkmem : k ∈ q.map Prod.fst :=
    (List.perm_insertionSort (· ≤ ·) (q.map Prod.fst)).mem_iff.mp hk
  obtain ⟨p, hp, hpk⟩ := List.mem_map.mp hkmem
  refine ⟨p.2, ?_⟩
  have : p = (k, p.2) := by rw [← hpk]
  exact this ▸ filter_key_singleton hnd (this ▸ hp)

theorem sortQuery_idem {q : List (String × String)} (hnd : (q.map Prod.fst).Nodup) :
    sortQuery (sortQuery q) = sortQuery q := by
  have hkeys : (sortQuery q).map Prod.fst = List.insertionSort (· ≤ ·) (q.map Prod.fst) :=
    keys_sortQuery hnd
  have hnd2 : ((sortQuery q).map Prod.fst).Nodup := by
    rw [hkeys]
    exact (List.perm_insertionSort (· ≤ ·) (q.map Prod.fst)).nodup_iff.mpr hnd
  have hsorted : ((sortQuery q).map Prod.fst).Sorted (· ≤ ·) := by
    rw [hkeys]
    exact List.sorted_insertionSort (· ≤ ·) (q.map Prod.fst)
  conv_lhs => rw [sortQuery]
  rw [hsorted.insertionSort_eq]
  exact flatMap_contrib_keys_eq hnd2

theorem removeTracking_sortQuery_removeTracking (q : List (String × String)) :
    removeTracking (sortQuery (removeTracking q)) = sortQuery (removeTracking q) := by
  rw [removeTracking, List.filter_eq_self]
  intro p hp
  rw [sortQuery] at hp
  obtain ⟨k, hk, hpk⟩ := List.mem_flatMap.mp hp
  obtain ⟨v, -, hv⟩ := List.mem_map.mp hpk
  have hkmem : k ∈ (removeTracking q).map Prod.fst :=
    (List.perm_insertionSort (· ≤ ·) _).mem_iff.mp hk
  obtain ⟨p0, hp0, hp0k⟩ := List.mem_map.mp hkmem
  have : isTrackingKey p0.1 = false := not_tracking_of_mem_removeTracking hp0
  rw [← hv]
  simpa [hp0k] using this

/-! ## Claims C5 and C6: trailing-slash stripping and idempotence -/

/-- **C5, counterexample.**  The claim says normalization strips exactly one
trailing slash, so a path `/p//` would normalize to `/p/`.  On the code
(`pathname.replace(/\/+$/, '')`) the whole run of trailing slashes is removed:
`/p//` normalizes to `/p`, not `/p/`. -/
theorem C5_counterexample :
    (normalizeURL ⟨"https:", "example.com", "", "/p//", [], ""⟩).path = "/p" ∧
      ("/p" : String) ≠ "/p/" := by
  constructor
  · rfl
  · decide

/-- **C5, amended.**  For every URL whose path begins with `/`, is not
exactly `/`, and carries no percent-escapes (so that the re-encoding step is
inert), URL normalization removes the entire maximal run of trailing slashes
from the path — all of them, not just one — except that a path consisting
entirely of slashes is re-normalized by the WHATWG `pathname` setter to the
root path `/`; hence the normalized path ends in a slash only when it is
exactly the root path. -/
theorem normalizeURL_strips_all_trailing_slashes (u : Url)
    (hstart : u.path.data.head? = some '/')
    (hroot : u.path ≠ "/")
    (hp : ∀ c ∈ u.path.data, isUnreservedChar c = true ∨ c = '/') :
    (normalizeURL u).path.data
        = (if dropTrailingSlashes u.path.data = [] then ['/']
            else dropTrailingSlashes u.path.data) ∧
      ((normalizeURL u).path.data.getLast? = some '/' ↔
        (normalizeURL u).path.data = ['/']) := by
  have hne : u.path.data ≠ ['/'] := by
    intro heq
    exact hroot (String.ext (by rw [heq]))
  have hstrip := stripPathL_eq u.path.data hstart hne
  have hchars : ∀ c ∈ stripPathL u.path.data, isUnreservedChar c = true ∨ c = '/' :=
    fun c hc => hp c (mem_stripPathL hc)
  have hsne : stripPathL u.path.data ≠ [] := by
    rw [hstrip]
    split
    · simp
    · rename_i hd
      exact hd
  have hpath : (normalizeURL u).path.data = stripPathL u.path.data := by
    show (String.mk (normalizePathL (stripPathL u.path.data))).data = _
    rw [normalizePathL_eq_self hsne hchars]
  refine ⟨hpath.trans hstrip, ?_⟩
  rw [hpath, hstrip]
  split
  · simp
  · rename_i hd
    constructor
    · intro hlast
      exact absurd hlast (getLast?_dropTrailingSlashes _)
    · intro heq
      exfalso
      exact getLast?_dropTrailingSlashes u.path.data (by rw [heq]; simp)

/-- Witness for the amended C5: at the claim's concrete path `/p//` the whole
run of trailing slashes is removed (giving `/p`), and at the all-slash path
`//` the emptied path collapses to the root `/`. -/
theorem normalizeURL_strips_all_trailing_slashes_witness :
    ((normalizeURL ⟨"https:", "x.com", "", "/p//", [], ""⟩).path.data
        = (if dropTrailingSlashes ("/p//" : String).data = [] then ['/']
            else dropTrailingSlashes ("/p//" : String).data) ∧
      ((normalizeURL ⟨"https:", "x.com", "", "/p//", [], ""⟩).path.data.getLast? = some '/' ↔
        (normalizeURL ⟨"https:", "x.com", "", "/p//", [], ""⟩).path.data = ['/'])) ∧
    ((normalizeURL ⟨"https:", "x.com", "", "//", [], ""⟩).path.data
        = (if dropTrailingSlashes ("//" : String).data = [] then ['/']
            else dropTrailingSlashes ("//" : String).data) ∧
      ((normalizeURL ⟨"https:", "x.com", "", "//", [], ""⟩).path.data.getLast? = some '/' ↔
        (normalizeURL ⟨"https:", "x.com", "", "//", [], ""⟩).path.data = ['/'])) :=
  ⟨normalizeURL_strips_all_trailing_slashes ⟨"https:", "x.com", "", "/p//", [], ""⟩
      (by decide) (by decide) (by decide),
    normalizeURL_strips_all_trailing_slashes ⟨"https:", "x.com", "", "//", [], ""⟩
      (by decide) (by decide) (by decide)⟩

/-- **C6, counterexample.**  `normalizeURL` is not idempotent on every accepted
URL: for `https://example.com/a%2F`, the first pass decodes `%2F` into a
literal slash, producing path `/a/`; the second pass then strips that slash,
producing `/a`. -/
theorem C6_counterexample :
    normalizeURL (normalizeURL ⟨"https:", "example.com", "", "/a%2F", [], ""⟩) ≠
      normalizeURL ⟨"https:", "example.com", "", "/a%2F", [], ""⟩ := by
  intro h
  have := congrArg Url.path h
  revert this
  decide

/-- **C6, amended.**  `normalizeURL` is idempotent on every accepted URL whose
query keys are pairwise distinct and whose path consists of unreserved
characters and slashes (in particular, no percent-escapes).  Outside this
class idempotence fails: a percent-encoded slash in the path gains and then
loses a trailing slash across two passes, and a repeated query key is
re-appended once per occurrence by the key-sorting step, duplicating its
values on every pass. -/
theorem urlExt {a b : Url} (h1 : a.scheme = b.scheme) (h2 : a.host = b.host)
    (h3 : a.port = b.port) (h4 : a.path = b.path) (h5 : a.query = b.query)
    (h6 : a.fragment = b.fragment) : a = b := by
  cases a; cases b
  cases h1; cases h2; cases h3; cases h4; cases h5; cases h6
  rfl

theorem normPort_idem (scheme port : String) :
    normPort scheme (normPort scheme port) = normPort scheme port := by
  rw [normPort]
  by_cases h : ((scheme == "http:" && port == "80") ||
      (scheme == "https:" && port == "443")) = true
  · have h1 : normPort scheme port = "" := by rw [normPort, if_pos h]
    rw [h1, if_neg (by simp)]
  · have h1 : normPort scheme port = port := by rw [normPort, if_neg h]
    rw [h1, if_neg h]

theorem normPath_idem (p : String)
    (hp : ∀ c ∈ p.data, isUnreservedChar c = true ∨ c = '/') :
    normPath (normPath p) = normPath p := by
  by_cases hnil : p.data = []
  · have h0 : p = "" := String.ext (by rw [hnil])
    rw [h0]
    decide
  · have hchars1 : ∀ c ∈ stripPathL p.data, isUnreservedChar c = true ∨ c = '/' :=
      fun c hc => hp c (mem_stripPathL hc)
    have hsne : stripPathL p.data ≠ [] := by
      rw [stripPathL]
      split
      · rw [pathnameSet]
        split
        · simp
        · rename_i hd
          exact hd
      · exact hnil
    have hdata : (normPath p).data = stripPathL p.data := by
      show (String.mk (normalizePathL (stripPathL p.data))).data = _
      rw [normalizePathL_eq_self hsne hchars1]
    apply String.ext
    show normalizePathL (stripPathL (normPath p).data) = (normPath p).data
    rw [hdata, stripPathL_idem, normalizePathL_eq_self hsne hchars1]

theorem normQuery_idem (q : List (String × String))
    (hq : (q.map Prod.fst).Nodup) : normQuery (normQuery q) = normQuery q := by
  show sortQuery (removeTracking (sortQuery (removeTracking q))) = _
  rw [removeTracking_sortQuery_removeTracking]
  exact sortQuery_idem (keys_nodup_removeTracking hq)

theorem normalizeURL_idem (u : Url)
    (hq : (u.query.map Prod.fst).Nodup)
    (hp : ∀ c ∈ u.path.data, isUnreservedChar c = true ∨ c = '/') :
    normalizeURL (normalizeURL u) = normalizeURL u := by
  apply urlExt
  · rfl
  · exact jsLower_idem u.host
  · exact normPort_idem u.scheme u.port
  · exact normPath_idem u.path hp
  · exact normQuery_idem u.query hq
  · rfl

/-- Witness for the amended C6 at a concrete URL with mixed-case host, default
port, a tracking parameter and unsorted distinct query keys. -/
theorem normalizeURL_idem_witness :
    normalizeURL (normalizeURL
        ⟨"https:", "Example.COM", "443", "/a/b/", [("b", "2"), ("a", "1"), ("utm_source", "x")], "#f"⟩) =
      normalizeURL
        ⟨"https:", "Example.COM", "443", "/a/b/", [("b", "2"), ("a", "1"), ("utm_source", "x")], "#f"⟩ :=
  normalizeURL_idem _ (by decide) (by decide)

/-! ## Data model

The five entities of the schema, with numeric ids.  Optional columns are
`Option`; Prisma column defaults (`isFavorite = false`, `sortOrder = 0`)
are applied at the creation sites that omit them, as the schema does. -/

inductive PermissionRole where
  | VIEWER
  | EDITOR
  deriving DecidableEq, Repr

structure Collection where
  id : Nat
  ownerId : Nat
  title : String
  icon : String
  isPublic : Bool
  shareSlug : Option String
  sortOrder : Int
  deriving DecidableEq, Repr

structure Bookmark where
  id : Nat
  ownerId : Nat
  collectionId : Nat
  url : String
  normalizedUrl : String
  title : String
  excerpt : Option String
  coverUrl : Option String
  domain : String
  btype : String
  note : Option String
  isDuplicate : Bool
  isFavorite : Bool
  sortOrder : Int
  deriving DecidableEq, Repr

structure Tag where
  id : Nat
  ownerId : Nat
  name : String
  normalizedName : String
  color : Option String
  deriving DecidableEq, Repr

structure CollectionPermission where
  id : Nat
  collectionId : Nat
  userId : Nat
  role : PermissionRole
  deriving DecidableEq, Repr

/-- The relational state: rows of each table (`users` only as a set of ids,
which is all `findUserById` existence checks need), the `BookmarkTag`
association pairs `(bookmarkId, tagId)`, and a fresh-id allocator. -/
structure Db where
  users : List Nat
  collections : List Collection
  bookmarks : List Bookmark
  tags : List Tag
  bookmarkTags : List (Nat × Nat)
  permissions : List CollectionPermission
  nextId : Nat
  deriving DecidableEq, Repr

/-- `prisma.bookmarkTag.createMany({data, skipDuplicates: true})`: insert the
rows in order, skipping any that collide with the unique `(bookmarkId, tagId)`
pair — including collisions with earlier rows of the same batch. -/
def createManyBookmarkTags (db : Db) (pairs : List (Nat × Nat)) : Db :=
  { db with bookmarkTags :=
      (pairs.foldl (fun acc p => if acc.contains p then acc else acc ++ [p])
        db.bookmarkTags) }

/-! ## Repositories -/

/-- `findCollectionById` (`findUnique({where: {id}})`). -/
def findCollectionById (db : Db) (id : Nat) : Option Collection :=
  db.collections.find? (fun c => c.id == id)

/-- `findCollectionByIdAndOwner` (`findFirst({where: {id, ownerId}})`). -/
def findCollectionByIdAndOwner (db : Db) (id ownerId : Nat) : Option Collection :=
  db.collections.find? (fun c => c.id == id && c.ownerId == ownerId)

/-- `findTagByIdAndOwner` (`findFirst({where: {id, ownerId}})`). -/
def findTagByIdAndOwner (db : Db) (id ownerId : Nat) : Option Tag :=
  db.tags.find? (fun t => t.id == id && t.ownerId == ownerId)

/-- `findTagByNormalizedName` (`findFirst({where: {normalizedName, ownerId}})`). -/
def findTagByNormalizedName (db : Db) (normalizedName : String) (ownerId : Nat) :
    Option Tag :=
  db.tags.find? (fun t => t.normalizedName == normalizedName && t.ownerId == ownerId)

/-- `getBookmarkIdsByTag`: the bookmark ids of all `BookmarkTag` rows with
this tag. -/
def getBookmarkIdsByTag (db : Db) (tagId : Nat) : List Nat :=
  (db.bookmarkTags.filter (fun bt => bt.2 == tagId)).map (·.1)

/-- `findPermissionByCollectionAndUser` followed by `?.role` — the
repository's `getUserRole`. -/
def getUserRole (db : Db) (collectionId userId : Nat) : Option PermissionRole :=
  (db.permissions.find?
      (fun p => p.collectionId == collectionId && p.userId == userId)).map (·.role)

/-- `findBookmarksByIds` (`findMany({where: {id: {in: bookmarkIds}, ownerId}})`). -/
def findBookmarksByIds (db : Db) (bookmarkIds : List Nat) (ownerId : Nat) :
    List Bookmark :=
  db.bookmarks.filter (fun b => bookmarkIds.contains b.id && b.ownerId == ownerId)

/-- `findBookmarksByNormalizedUrl` (`findMany({where: {normalizedUrl, ownerId}})`). -/
def findBookmarksByNormalizedUrl (db : Db) (normalizedUrl : String) (ownerId : Nat) :
    List Bookmark :=
  db.bookmarks.filter (fun b => b.normalizedUrl == normalizedUrl && b.ownerId == ownerId)

/-! ## Tag normalizer and tag repository operations -/

/-- JS whitespace test for `String.prototype.trim` (ASCII fragment). -/
def isJsSpace (c : Char) : Bool :=
  c == ' ' || c == '\t' || c == '\n' || c == '\r' || c == '\x0b' || c == '\x0c'

/-- Model of `str.trim()`. -/
def jsTrim (s : String) : String :=
  String.mk (((s.data.dropWhile isJsSpace).reverse.dropWhile isJsSpace).reverse)

/-- `normalizeTagName(name) = name.toLowerCase().trim()` (`tag.model.ts`). -/
def normalizeTagName (name : String) : String :=
  jsTrim (jsLower name)

/-- `createTag` of the tag repository: inserts a fresh row. -/
def createTag (db : Db) (ownerId : Nat) (name normalizedName : String)
    (color : Option String) : Tag × Db :=
  let t : Tag := ⟨db.nextId, ownerId, name, normalizedName, color⟩
  (t, { db with tags := db.tags ++ [t], nextId := db.nextId + 1 })

/-- `getOrCreateTag` of the tag repository: find by `(normalizedName, ownerId)`
or create with the trimmed display name. -/
def getOrCreateTag (db : Db) (ownerId : Nat) (name normalizedName : String) :
    Tag × Db :=
  match findTagByNormalizedName db normalizedName ownerId with
  | some existing => (existing, db)
  | none => createTag db ownerId (jsTrim name) normalizedName none

/-- The get-or-create loop over tag names shared by `bookmark.service.ts`
(`getOrCreateTags`) and `bulk-operation.service.ts` (`bulkAddTags`): both
normalize each name and find-or-create the tag, accumulating ids in order. -/
def getOrCreateTags (db : Db) (ownerId : Nat) (tagNames : List String) :
    List Nat × Db :=
  tagNames.foldl
    (fun acc name =>
      let (t, db') := getOrCreateTag acc.2 ownerId (jsTrim name) (normalizeTagName name)
      (acc.1 ++ [t.id], db'))
    ([], db)

/-- `mergeTags` of the tag repository deletes the source tag at the end;
the schema cascades its `BookmarkTag` rows. -/
def deleteTagCascade (db : Db) (tagId : Nat) : Db :=
  { db with
      tags := db.tags.filter (fun t => !(t.id == tagId))
      bookmarkTags := db.bookmarkTags.filter (fun bt => !(bt.2 == tagId)) }

structure MergeTagsRepoResult where
  success : Bool
  affectedBookmarks : Nat
  deriving DecidableEq, Repr

/-- `mergeTags(sourceTagId, targetTagId, ownerId)` of `tag.repository.ts`:
verify both tags, link to the target every source bookmark not already
linked (`createMany` with `skipDuplicates`), delete the source tag, and
return `affectedBookmarks = sourceBookmarkIds.length`. -/
def mergeTags (db : Db) (sourceTagId targetTagId ownerId : Nat) :
    MergeTagsRepoResult × Db :=
  match findTagByIdAndOwner db sourceTagId ownerId,
        findTagByIdAndOwner db targetTagId ownerId with
  | some _, some _ =>
    let sourceBookmarkIds := getBookmarkIdsByTag db sourceTagId
    let targetBookmarkIds := getBookmarkIdsByTag db targetTagId
    let bookmarksToLink :=
      sourceBookmarkIds.filter (fun id => !(targetBookmarkIds.contains id))
    let db1 :=
      if bookmarksToLink.length > 0 then
        createManyBookmarkTags db (bookmarksToLink.map (fun b => (b, targetTagId)))
      else db
    let db2 := deleteTagCascade db1 sourceTagId
    (⟨true, sourceBookmarkIds.length⟩, db2)
  | _, _ => (⟨false, 0⟩, db)

structure MergeTagsResult where
  success : Bool
  affectedBookmarks : Option Nat
  errorCode : Option String
  deriving DecidableEq, Repr

/-- `mergeTagsForUser` of `tag.service.ts`: reject a self-merge, verify the
source and the target, then delegate to the repository merge. -/
def mergeTagsForUser (db : Db) (sourceTagId targetTagId ownerId : Nat) :
    MergeTagsResult × Db :=
  if sourceTagId == targetTagId then
    (⟨false, none, some "TAG_MERGE_SAME_TAG"⟩, db)
  else
    match findTagByIdAndOwner db sourceTagId ownerId with
    | none => (⟨false, none, some "TAG_SOURCE_NOT_FOUND"⟩, db)
    | some _ =>
      match findTagByIdAndOwner db targetTagId ownerId with
      | none => (⟨false, none, some "TAG_TARGET_NOT_FOUND"⟩, db)
      | some _ =>
        let (result, db') := mergeTags db sourceTagId targetTagId ownerId
        if result.success then
          (⟨true, some result.affectedBookmarks, none⟩, db')
        else
          (⟨false, none, none⟩, db')

/-! ## Permission service (`permission.service.ts`) -/

/-- `canEdit(role)` of `permission.model.ts`: only editors edit. -/
def canEdit (role : PermissionRole) : Bool := role == .EDITOR

/-- `canView(role)` of `permission.model.ts`: all roles view. -/
def canView (role : PermissionRole) : Bool := role == .VIEWER || role == .EDITOR

/-- The role slot of an access-check result: a stored role or `'owner'`. -/
inductive AccessRole where
  | viewer
  | editor
  | owner
  deriving DecidableEq, Repr

def toAccessRole : PermissionRole → AccessRole
  | .VIEWER => .viewer
  | .EDITOR => .editor

structure AccessCheckResult where
  hasAccess : Bool
  role : Option AccessRole
  canEdit : Bool
  canView : Bool
  deriving DecidableEq, Repr

/-- `checkCollectionAccess(collectionId, userId)`: owner → full access;
else a stored permission row decides; else no access.  (The function never
consults `isPublic`.) -/
def checkCollectionAccess (db : Db) (collectionId userId : Nat) :
    AccessCheckResult :=
  match findCollectionById db collectionId with
  | none => ⟨false, none, false, false⟩
  | some collection =>
    if collection.ownerId == userId then
      ⟨true, some .owner, true, true⟩
    else
      match getUserRole db collectionId userId with
      | some role => ⟨true, some (toAccessRole role), canEdit role, canView role⟩
      | none => ⟨false, none, false, false⟩

/-- `canViewCollection(collectionId, userId)` with `userId : string | null`:
public collections are viewable by anyone (anonymous included); otherwise the
owner or a principal with any stored role. -/
def canViewCollection (db : Db) (collectionId : Nat) (userId : Option Nat) :
    Bool :=
  match findCollectionById db collectionId with
  | none => false
  | some collection =>
    if collection.isPublic then true
    else
      match userId with
      | none => false
      | some uid =>
        if collection.ownerId == uid then true
        else (getUserRole db collectionId uid).isSome

structure PermissionResult where
  success : Bool
  permission : Option CollectionPermission
  errorCode : Option String
  deriving DecidableEq, Repr

/-- `updatePermissionRole(id, role)` of the permission repository
(`update({where: {id}})`; a missing row makes Prisma throw, which the
repository catches and maps to `null`). -/
def updatePermissionRole (db : Db) (id : Nat) (role : PermissionRole) :
    Option CollectionPermission × Db :=
  match db.permissions.find? (fun p => p.id == id) with
  | none => (none, db)
  | some p =>
    let p' := { p with role := role }
    (some p',
      { db with permissions :=
          db.permissions.map (fun q => if q.id == id then p' else q) })

/-- `createPermission` of the permission repository: insert a fresh row. -/
def createPermission (db : Db) (collectionId userId : Nat)
    (role : PermissionRole) : CollectionPermission × Db :=
  let p : CollectionPermission := ⟨db.nextId, collectionId, userId, role⟩
  (p, { db with permissions := db.permissions ++ [p], nextId := db.nextId + 1 })

/-- `shareCollection(collectionId, ownerId, {userId, role})`: verify the
collection, ownership, not-self, and the target user; if a permission row
already exists, update its role in place when the requested role differs
else fail with `ALREADY_SHARED`; otherwise create the row. -/
def shareCollection (db : Db) (collectionId ownerId targetUserId : Nat)
    (role : PermissionRole) : PermissionResult × Db :=
  match findCollectionById db collectionId with
  | none => (⟨false, none, some "PERMISSION_COLLECTION_NOT_FOUND"⟩, db)
  | some collection =>
    if !(collection.ownerId == ownerId) then
      (⟨false, none, some "PERMISSION_NOT_OWNER"⟩, db)
    else if targetUserId == ownerId then
      (⟨false, none, some "PERMISSION_CANNOT_SHARE_WITH_SELF"⟩, db)
    else if !(db.users.contains targetUserId) then
      (⟨false, none, some "PERMISSION_USER_NOT_FOUND"⟩, db)
    else
      match db.permissions.find?
          (fun p => p.collectionId == collectionId && p.userId == targetUserId) with
      | some existingPermission =>
        if !(existingPermission.role == role) then
          let (updated, db') := updatePermissionRole db existingPermission.id role
          (⟨true, updated, none⟩, db')
        else
          (⟨false, none, some "PERMISSION_ALREADY_SHARED"⟩, db)
      | none =>
        let (permission, db') := createPermission db collectionId targetUserId role
        (⟨true, some permission, none⟩, db')

/-! ## Collection service (`collection.service.ts` / repository) -/

/-- `getOrCreateUnsortedCollection(ownerId)` of the collection repository:
find the first collection of the owner titled `Unsorted`, else create one
with icon `inbox` and sort order `0`. -/
def getOrCreateUnsortedCollection (db : Db) (ownerId : Nat) : Collection × Db :=
  match db.collections.find?
      (fun c => c.ownerId == ownerId && c.title == "Unsorted") with
  | some existing => (existing, db)
  | none =>
    let c : Collection :=
      { id := db.nextId, ownerId := ownerId, title := "Unsorted", icon := "inbox"
        isPublic := false, shareSlug := none, sortOrder := 0 }
    (c, { db with collections := db.collections ++ [c], nextId := db.nextId + 1 })

/-- `moveBookmarksToCollection(fromCollectionId, toCollectionId)` of the
collection repository (`updateMany({where: {collectionId: from}})` — no
owner filter); returns the update count. -/
def moveBookmarksToCollection (db : Db) (fromCollectionId toCollectionId : Nat) :
    Nat × Db :=
  let n := (db.bookmarks.filter (fun b => b.collectionId == fromCollectionId)).length
  (n, { db with bookmarks :=
      (db.bookmarks.map (fun b =>
        if b.collectionId == fromCollectionId then
          { b with collectionId := toCollectionId }
        else b)) })

/-- `deleteCollection(id, ownerId)` of the collection repository: ownership
check then row delete. -/
def deleteCollection (db : Db) (id ownerId : Nat) : Bool × Db :=
  match findCollectionByIdAndOwner db id ownerId with
  | none => (false, db)
  | some _ =>
    (true, { db with collections := db.collections.filter (fun c => !(c.id == id)) })

structure DeleteCollectionResult where
  success : Bool
  movedBookmarks : Option Nat
  errorCode : Option String
  deriving DecidableEq, Repr

/-- `deleteCollectionForUser(id, ownerId)`: not-found check, refuse to delete
a collection titled `Unsorted`, else move every bookmark of the collection to
the (possibly freshly created) `Unsorted` collection, delete the row, and
report the moved count. -/
def deleteCollectionForUser (db : Db) (id ownerId : Nat) :
    DeleteCollectionResult × Db :=
  match findCollectionByIdAndOwner db id ownerId with
  | none => (⟨false, none, some "COLLECTION_NOT_FOUND"⟩, db)
  | some collection =>
    if collection.title == "Unsorted" then
      (⟨false, none, some "COLLECTION_CANNOT_DELETE_UNSORTED"⟩, db)
    else
      let (unsortedCollection, db1) := getOrCreateUnsortedCollection db ownerId
      let (movedCount, db2) := moveBookmarksToCollection db1 id unsortedCollection.id
      let (_, db3) := deleteCollection db2 id ownerId
      (⟨true, some movedCount, none⟩, db3)

/-! ## Bookmark service (`bookmark.service.ts`) -/

/-- Substring test (JS `String.prototype.includes`). -/
def hasSub (sub : List Char) : List Char → Bool
  | [] => sub.isEmpty
  | c :: t => sub.isPrefixOf (c :: t) || hasSub sub t

def strIncludes (s sub : String) : Bool := hasSub sub.data s.data

def strEndsWith (s suffix : String) : Bool :=
  suffix.data.reverse.isPrefixOf s.data.reverse

/-- Model of matching the regex `/\.(ext)(\?|$)/` for one extension
alternative: `.ext?` anywhere, or `.ext` at the end. -/
def extMatch (lower ext : String) : Bool :=
  strIncludes lower ("." ++ ext ++ "?") || strEndsWith lower ("." ++ ext)

/-- `detectBookmarkType(url)`: domain/extension heuristics on the lowercased
raw URL, defaulting to `ARTICLE`. -/
def detectBookmarkType (url : String) : String :=
  let urlLower := jsLower url
  if strIncludes urlLower "youtube.com" || strIncludes urlLower "youtu.be" ||
      strIncludes urlLower "vimeo.com" || strIncludes urlLower "dailymotion.com" ||
      strIncludes urlLower "twitch.tv" then "VIDEO"
  else if strIncludes urlLower "imgur.com" || strIncludes urlLower "flickr.com" ||
      strIncludes urlLower "unsplash.com" || extMatch urlLower "jpg" ||
      extMatch urlLower "jpeg" || extMatch urlLower "png" ||
      extMatch urlLower "gif" || extMatch urlLower "webp" ||
      extMatch urlLower "svg" then "IMAGE"
  else if strIncludes urlLower "soundcloud.com" || strIncludes urlLower "spotify.com" ||
      strIncludes urlLower "podcasts.apple.com" || extMatch urlLower "mp3" ||
      extMatch urlLower "wav" || extMatch urlLower "ogg" ||
      extMatch urlLower "flac" then "AUDIO"
  else if extMatch urlLower "pdf" || extMatch urlLower "doc" ||
      extMatch urlLower "docx" || extMatch urlLower "xls" ||
      extMatch urlLower "xlsx" || extMatch urlLower "ppt" ||
      extMatch urlLower "pptx" || extMatch urlLower "epub" then "DOCUMENT"
  else "ARTICLE"

/-- `title.charAt(0).toUpperCase() + title.slice(1)`. -/
def capitalizeFirst : List Char → List Char
  | [] => []
  | c :: t => c.toUpper :: t

/-- `extractMetadata(url)`: a title from the last non-empty path segment
(dashes and underscores become spaces) or the domain, capitalized; the
excerpt and cover of this stub are absent. -/
def extractMetadataTitle (u : Url) : String :=
  let domain := extractDomain u
  let pathParts := (splitSlash u.path.data).filter (fun s => !s.isEmpty)
  match pathParts.getLast? with
  | some lastPathPart =>
    String.mk (capitalizeFirst
      (lastPathPart.map (fun c => if c == '-' || c == '_' then ' ' else c)))
  | none => String.mk (capitalizeFirst domain.data)

/-- `getOrCreateDefaultCollection(ownerId)` — the bookmark service's local
copy of the find-or-create of the `Unsorted` collection, returning its id. -/
def getOrCreateDefaultCollection (db : Db) (ownerId : Nat) : Nat × Db :=
  let (c, db') := getOrCreateUnsortedCollection db ownerId
  (c.id, db')

/-- `addTagsToBookmark(bookmarkId, tagIds)` of the bookmark repository
(`createMany` with `skipDuplicates`). -/
def addTagsToBookmark (db : Db) (bookmarkId : Nat) (tagIds : List Nat) : Db :=
  createManyBookmarkTags db (tagIds.map (fun tagId => (bookmarkId, tagId)))

/-- `CreateBookmarkDTO`, with the URL already parsed into components (the
service receives a string and feeds it to `new URL` inside the normalizer;
parsing is abstracted per the conventions above). -/
structure CreateBookmarkDTO where
  url : Url
  title : Option String
  excerpt : Option String
  coverUrl : Option String
  note : Option String
  collectionId : Option Nat
  tags : Option (List String)
  deriving DecidableEq, Repr

structure BookmarkResult where
  success : Bool
  bookmark : Option Bookmark
  errorCode : Option String
  deriving DecidableEq, Repr

/-- The shared tail of `createBookmarkForUser` after the collection id is
resolved: insert the bookmark row (`isFavorite`/`sortOrder` take the schema
defaults), then get-or-create and attach any tags. -/
def insertBookmarkWithTags (db : Db) (ownerId : Nat) (dto : CreateBookmarkDTO)
    (collectionId : Nat) (rawUrl normalizedUrl domain btype title : String)
    (isDuplicate : Bool) : BookmarkResult × Db :=
  let b : Bookmark :=
    { id := db.nextId, ownerId := ownerId, collectionId := collectionId
      url := rawUrl, normalizedUrl := normalizedUrl, title := title
      excerpt := dto.excerpt, coverUrl := dto.coverUrl, domain := domain
      btype := btype, note := dto.note, isDuplicate := isDuplicate
      isFavorite := false, sortOrder := 0 }
  let db1 := { db with bookmarks := db.bookmarks ++ [b], nextId := db.nextId + 1 }
  match dto.tags with
  | some tagNames =>
    if tagNames.length > 0 then
      let (tagIds, db2) := getOrCreateTags db1 ownerId tagNames
      (⟨true, some b, none⟩, addTagsToBookmark db2 b.id tagIds)
    else (⟨true, some b, none⟩, db1)
  | none => (⟨true, some b, none⟩, db1)

/-- `createBookmarkForUser(ownerId, data)`: normalize the URL, compute domain
and content type, set `isDuplicate` iff the owner already has a bookmark with
the same normalized URL, fill in a metadata title when none (or an empty one)
is given, resolve the collection (the default `Unsorted` one when omitted,
an ownership-checked one when given), and insert.  (`data.excerpt ?? metadata.excerpt`
keeps `data.excerpt`, since the metadata stub yields no excerpt.) -/
def createBookmarkForUser (db : Db) (ownerId : Nat) (dto : CreateBookmarkDTO) :
    BookmarkResult × Db :=
  let rawUrl := serializeUrl dto.url
  let normalizedUrl := serializeUrl (normalizeURL dto.url)
  let domain := extractDomain dto.url
  let btype := detectBookmarkType rawUrl
  let isDuplicate := (findBookmarksByNormalizedUrl db normalizedUrl ownerId).length > 0
  let title :=
    if dto.title.getD "" == "" then extractMetadataTitle dto.url else dto.title.getD ""
  match dto.collectionId with
  | some cid =>
    match db.collections.find? (fun c => c.id == cid && c.ownerId == ownerId) with
    | none => (⟨false, none, some "BOOKMARK_COLLECTION_NOT_FOUND"⟩, db)
    | some _ =>
      insertBookmarkWithTags db ownerId dto cid rawUrl normalizedUrl domain btype
        title isDuplicate
  | none =>
    let (cid, db1) := getOrCreateDefaultCollection db ownerId
    insertBookmarkWithTags db1 ownerId dto cid rawUrl normalizedUrl domain btype
      title isDuplicate

/-! ## Bulk operations (`bulk-operation.service.ts` / `bookmark.repository.ts`) -/

inductive BulkAction where
  | addTags
  | removeTags
  | move
  | delete
  | favorite
  | unfavorite
  | reorder
  deriving DecidableEq, Repr

structure BulkPayload where
  tags : Option (List String)
  tagIds : Option (List Nat)
  collectionId : Option Nat
  orders : Option (List (Nat × Int))
  deriving DecidableEq, Repr

structure BulkOperation where
  bookmarkIds : List Nat
  action : BulkAction
  payload : Option BulkPayload
  deriving DecidableEq, Repr

structure BulkOperationResult where
  success : Bool
  affectedCount : Nat
  errorCode : Option String
  deriving DecidableEq, Repr

/-- `bulkAddTagsToBookmarks(bookmarkIds, tagIds, ownerId)` of the bookmark
repository: re-verify ownership, build the full cross product of association
rows, `createMany` with `skipDuplicates`, and return the number of valid
bookmarks. -/
def bulkAddTagsToBookmarks (db : Db) (bookmarkIds tagIds : List Nat)
    (ownerId : Nat) : Nat × Db :=
  let validBookmarkIds := (findBookmarksByIds db bookmarkIds ownerId).map (·.id)
  let data := validBookmarkIds.flatMap
    (fun bookmarkId => tagIds.map (fun tagId => (bookmarkId, tagId)))
  if data.length == 0 then (0, db)
  else (validBookmarkIds.length, createManyBookmarkTags db data)

/-- `bulkRemoveTagsFromBookmarks(bookmarkIds, tagIds, ownerId)`:
re-verify ownership and `deleteMany` the association rows. -/
def bulkRemoveTagsFromBookmarks (db : Db) (bookmarkIds tagIds : List Nat)
    (ownerId : Nat) : Nat × Db :=
  let validBookmarkIds := (findBookmarksByIds db bookmarkIds ownerId).map (·.id)
  if validBookmarkIds.length == 0 then (0, db)
  else
    (validBookmarkIds.length,
      { db with bookmarkTags := (db.bookmarkTags.filter
          (fun bt => !(validBookmarkIds.contains bt.1 && tagIds.contains bt.2))) })

/-- `moveBookmarksToCollection(bookmarkIds, collectionId, ownerId)` of the
bookmark repository (`updateMany({where: {id: {in}, ownerId}})`). -/
def moveBookmarksByIds (db : Db) (bookmarkIds : List Nat) (collectionId : Nat)
    (ownerId : Nat) : Nat × Db :=
  let n := (findBookmarksByIds db bookmarkIds ownerId).length
  (n, { db with bookmarks :=
      (db.bookmarks.map (fun b =>
        if bookmarkIds.contains b.id && b.ownerId == ownerId then
          { b with collectionId := collectionId }
        else b)) })

/-- `deleteBookmarks(bookmarkIds, ownerId)` (`deleteMany`); the schema
cascades the `BookmarkTag` rows of deleted bookmarks. -/
def deleteBookmarks (db : Db) (bookmarkIds : List Nat) (ownerId : Nat) :
    Nat × Db :=
  let doomed := (findBookmarksByIds db bookmarkIds ownerId).map (·.id)
  (doomed.length,
    { db with
        bookmarks := db.bookmarks.filter
          (fun b => !(bookmarkIds.contains b.id && b.ownerId == ownerId))
        bookmarkTags := db.bookmarkTags.filter (fun bt => !(doomed.contains bt.1)) })

/-- One `(bookmarkId, sortOrder)` pair applied to one bookmark row: the
`updateMany({where: {id: bookmarkId, ownerId}, data: {sortOrder}})` body. -/
def orderUpd (ownerId : Nat) (bo : Nat × Int) (b : Bookmark) : Bookmark :=
  if b.id == bo.1 && b.ownerId == ownerId then { b with sortOrder := bo.2 } else b

/-- One step of the `bulkUpdateSortOrder` transaction: run the pair's
`updateMany` and add its row count to the accumulator. -/
def sortStep (ownerId : Nat) (acc : Nat × Db) (bo : Nat × Int) : Nat × Db :=
  (acc.1 + (acc.2.bookmarks.filter
      (fun b => b.id == bo.1 && b.ownerId == ownerId)).length,
    { acc.2 with bookmarks := acc.2.bookmarks.map (orderUpd ownerId bo) })

/-- `bulkUpdateSortOrder(bookmarkOrders, ownerId)` of the bookmark repository:
inside one transaction, for each `(bookmarkId, sortOrder)` pair run
`updateMany({where: {id: bookmarkId, ownerId}})` and accumulate the counts. -/
def bulkUpdateSortOrder (db : Db) (bookmarkOrders : List (Nat × Int))
    (ownerId : Nat) : Nat × Db :=
  bookmarkOrders.foldl (sortStep ownerId) (0, db)

/-- `bulkAddTags` of the bulk service: resolve tag names (get-or-create) or
verify explicit tag ids, fail with `TAGS_REQUIRED` when nothing resolves,
else delegate to the repository. -/
def bulkAddTags (db : Db) (ownerId : Nat) (bookmarkIds : List Nat)
    (tagNames : Option (List String)) (tagIds : Option (List Nat)) :
    BulkOperationResult × Db :=
  let (resolvedTagIds, db1) :=
    match tagNames with
    | some names =>
      if names.length > 0 then getOrCreateTags db ownerId names
      else
        (((tagIds.getD []).filter
          (fun tid => (findTagByIdAndOwner db tid ownerId).isSome)), db)
    | none =>
      (((tagIds.getD []).filter
        (fun tid => (findTagByIdAndOwner db tid ownerId).isSome)), db)
  if resolvedTagIds.length == 0 then
    (⟨false, 0, some "BULK_TAGS_REQUIRED"⟩, db1)
  else
    let (affectedCount, db2) := bulkAddTagsToBookmarks db1 bookmarkIds resolvedTagIds ownerId
    (⟨true, affectedCount, none⟩, db2)

/-- `bulkRemoveTags` of the bulk service: resolve names by lookup only
(unresolved names are skipped) or verify explicit tag ids. -/
def bulkRemoveTags (db : Db) (ownerId : Nat) (bookmarkIds : List Nat)
    (tagNames : Option (List String)) (tagIds : Option (List Nat)) :
    BulkOperationResult × Db :=
  let resolvedTagIds :=
    match tagNames with
    | some names =>
      if names.length > 0 then
        names.foldl
          (fun acc name =>
            match findTagByNormalizedName db (normalizeTagName name) ownerId with
            | some t => acc ++ [t.id]
            | none => acc)
          []
      else
        (tagIds.getD []).filter (fun tid => (findTagByIdAndOwner db tid ownerId).isSome)
    | none =>
      (tagIds.getD []).filter (fun tid => (findTagByIdAndOwner db tid ownerId).isSome)
  if resolvedTagIds.length == 0 then
    (⟨false, 0, some "BULK_TAGS_REQUIRED"⟩, db)
  else
    let (affectedCount, db') := bulkRemoveTagsFromBookmarks db bookmarkIds resolvedTagIds ownerId
    (⟨true, affectedCount, none⟩, db')

/-- `bulkMove` of the bulk service. -/
def bulkMove (db : Db) (ownerId : Nat) (bookmarkIds : List Nat)
    (collectionId : Option Nat) : BulkOperationResult × Db :=
  match collectionId with
  | none => (⟨false, 0, some "BULK_COLLECTION_NOT_FOUND"⟩, db)
  | some cid =>
    match findCollectionByIdAndOwner db cid ownerId with
    | none => (⟨false, 0, some "BULK_COLLECTION_NOT_FOUND"⟩, db)
    | some _ =>
      let (affectedCount, db') := moveBookmarksByIds db bookmarkIds cid ownerId
      (⟨true, affectedCount, none⟩, db')

/-- `bulkDelete` of the bulk service. -/
def bulkDelete (db : Db) (ownerId : Nat) (bookmarkIds : List Nat) :
    BulkOperationResult × Db :=
  let (affectedCount, db') := deleteBookmarks db bookmarkIds ownerId
  (⟨true, affectedCount, none⟩, db')

/-- `bulkSetFavorite` of the bulk service
(`updateMany({where: {id: {in}, ownerId}, data: {isFavorite}})`). -/
def bulkSetFavorite (db : Db) (ownerId : Nat) (bookmarkIds : List Nat)
    (isFavorite : Bool) : BulkOperationResult × Db :=
  let n := (findBookmarksByIds db bookmarkIds ownerId).length
  (⟨true, n, none⟩,
    { db with bookmarks :=
        (db.bookmarks.map (fun b =>
          if bookmarkIds.contains b.id && b.ownerId == ownerId then
            { b with isFavorite := isFavorite }
          else b)) })

/-- `bulkReorder` of the bulk service: note it passes the raw payload orders
straight to the repository — the ownership-filtered selection plays no
further part. -/
def bulkReorder (db : Db) (ownerId : Nat) (orders : Option (List (Nat × Int))) :
    BulkOperationResult × Db :=
  match orders with
  | none => (⟨false, 0, some "BULK_ORDERS_REQUIRED"⟩, db)
  | some os =>
    if os.length == 0 then (⟨false, 0, some "BULK_ORDERS_REQUIRED"⟩, db)
    else
      let (affectedCount, db') := bulkUpdateSortOrder db os ownerId
      (⟨true, affectedCount, none⟩, db')

/-- `executeBulkOperation(ownerId, operation)`: filter the requested ids down
to bookmarks owned by the caller, fail with `NO_BOOKMARKS` on an empty
selection, then dispatch on the action. -/
def executeBulkOperation (db : Db) (ownerId : Nat) (op : BulkOperation) :
    BulkOperationResult × Db :=
  let validBookmarks := findBookmarksByIds db op.bookmarkIds ownerId
  if validBookmarks.length == 0 then
    (⟨false, 0, some "BULK_NO_BOOKMARKS"⟩, db)
  else
    let validBookmarkIds := validBookmarks.map (·.id)
    match op.action with
    | .addTags =>
      bulkAddTags db ownerId validBookmarkIds (op.payload.bind (·.tags))
        (op.payload.bind (·.tagIds))
    | .removeTags =>
      bulkRemoveTags db ownerId validBookmarkIds (op.payload.bind (·.tags))
        (op.payload.bind (·.tagIds))
    | .move => bulkMove db ownerId validBookmarkIds (op.payload.bind (·.collectionId))
    | .delete => bulkDelete db ownerId validBookmarkIds
    | .favorite => bulkSetFavorite db ownerId validBookmarkIds true
    | .unfavorite => bulkSetFavorite db ownerId validBookmarkIds false
    | .reorder => bulkReorder db ownerId (op.payload.bind (·.orders))

/-! ## Generic list lemmas used by the claim proofs -/

theorem find?_key_eq_some {α : Type} {l : List α} {key : α → Nat}
    (hnd : (l.map key).Nodup) {x : α} (hx : x ∈ l) :
    l.find? (fun y => key y == key x) = some x := by
  induction l with
  | nil => cases hx
  | cons a t ih =>
    rw [List.map_cons, List.nodup_cons] at hnd
    rcases List.mem_cons.mp hx with h | h
    · subst h
      rw [List.find?_cons_of_pos _ (by simp)]
    · have hne : key a ≠ key x :=
        fun he => hnd.1 (he ▸ List.mem_map.mpr ⟨x, h, rfl⟩)
      rw [List.find?_cons_of_neg _ (by simpa using hne), ih hnd.2 h]

theorem length_filter_add_length_filter_not {α : Type} (l : List α) (p : α → Bool) :
    (l.filter p).length + (l.filter (fun a => !(p a))).length = l.length := by
  induction l with
  | nil => rfl
  | cons a t ih =>
    by_cases h : p a
    · rw [List.filter_cons_of_pos h, List.filter_cons_of_neg (by simp [h])]
      simp only [List.length_cons]
      omega
    · rw [List.filter_cons_of_neg h,
        List.filter_cons_of_pos (by simp [Bool.eq_false_iff.mpr h])]
      simp only [List.length_cons]
      omega

/-! ## Claim C10: re-sharing with an existing permission row -/

/-- **C10.**  Sharing a collection with a user who already holds a permission
row fails with `ALREADY_SHARED` iff the requested role equals the stored one;
a differing role instead updates the stored row in place (same row id, no
second row, nothing else changed). -/
theorem shareCollection_existing_row (db : Db)
    (collectionId ownerId targetUserId : Nat) (role : PermissionRole)
    (collection : Collection) (existing : CollectionPermission)
    (hcol : findCollectionById db collectionId = some collection)
    (hown : collection.ownerId = ownerId)
    (hself : targetUserId ≠ ownerId)
    (huser : db.users.contains targetUserId = true)
    (hnd : (db.permissions.map (·.id)).Nodup)
    (hex : db.permissions.find?
      (fun p => p.collectionId == collectionId && p.userId == targetUserId) =
        some existing) :
    (existing.role = role →
      shareCollection db collectionId ownerId targetUserId role =
        (⟨false, none, some "PERMISSION_ALREADY_SHARED"⟩, db)) ∧
    (existing.role ≠ role →
      (shareCollection db collectionId ownerId targetUserId role).1.success = true ∧
      (shareCollection db collectionId ownerId targetUserId role).1.permission =
        some { existing with role := role } ∧
      (shareCollection db collectionId ownerId targetUserId role).2.permissions =
        db.permissions.map
          (fun q => if q.id == existing.id then { existing with role := role } else q) ∧
      (shareCollection db collectionId ownerId targetUserId role).2.permissions.length =
        db.permissions.length) := by
  have hmem : existing ∈ db.permissions := List.mem_of_find?_eq_some hex
  have hfind : db.permissions.find? (fun p => p.id == existing.id) = some existing := by
    simpa using @find?_key_eq_some _ _ (fun p => p.id) hnd _ hmem
  have hupd : updatePermissionRole db existing.id role =
      (some { existing with role := role },
        { db with permissions :=
            (db.permissions.map
              (fun q => if q.id == existing.id then { existing with role := role } else q)) }) := by
    rw [updatePermissionRole, hfind]
  have hmain : shareCollection db collectionId ownerId targetUserId role =
      (if !(existing.role == role) then
        (⟨true, (updatePermissionRole db existing.id role).1, none⟩,
          (updatePermissionRole db existing.id role).2)
      else (⟨false, none, some "PERMISSION_ALREADY_SHARED"⟩, db)) := by
    simp only [shareCollection, hcol, hex]
    rw [if_neg (by simp [hown]), if_neg (by simpa using hself),
      if_neg (by simpa using huser)]
  constructor
  · intro hsame
    rw [hmain, if_neg (by simp [hsame])]
  · intro hdiff
    rw [hmain, if_pos (by simp [hdiff]), hupd]
    exact ⟨rfl, rfl, rfl, by simp⟩

/-- A concrete state for the C10 witness: collection 5 owned by user 1,
already shared with user 2 as `VIEWER`. -/
def c10db : Db :=
  { users := [1, 2], collections := [⟨5, 1, "C", "folder", false, none, 0⟩],
    bookmarks := [], tags := [], bookmarkTags := [],
    permissions := [⟨50, 5, 2, .VIEWER⟩], nextId := 100 }

/-- Witness for C10: one stored `VIEWER` row; requesting `VIEWER` again is
`ALREADY_SHARED`, requesting `EDITOR` updates it in place. -/
theorem shareCollection_existing_row_witness :
    (shareCollection c10db 5 1 2 .VIEWER =
      (⟨false, none, some "PERMISSION_ALREADY_SHARED"⟩, c10db)) ∧
    ((shareCollection c10db 5 1 2 .EDITOR).2.permissions.length = 1) := by
  constructor
  · exact (shareCollection_existing_row c10db 5 1 2 .VIEWER
      ⟨5, 1, "C", "folder", false, none, 0⟩
      ⟨50, 5, 2, .VIEWER⟩ (by decide) rfl (by decide) (by decide) (by decide) (by decide)).1 rfl
  · have h := (shareCollection_existing_row c10db 5 1 2 .EDITOR
      ⟨5, 1, "C", "folder", false, none, 0⟩
      ⟨50, 5, 2, .VIEWER⟩ (by decide) rfl (by decide) (by decide) (by decide) (by decide)).2
      (by decide)
    exact h.2.2.2.trans (by decide)

/-! ## Claim C2: public collections and the access check -/

/-- A concrete state for C2: a public collection 5 owned by user 1, with no
permission rows at all. -/
def c2db : Db :=
  { users := [1, 2], collections := [⟨5, 1, "C", "folder", true, some "s", 0⟩],
    bookmarks := [], tags := [], bookmarkTags := [], permissions := [],
    nextId := 100 }

/-- **C2, counterexample.**  The claim says the single access check yields
`canView = true` for any principal on a public collection.  On the code,
`checkCollectionAccess` never consults `isPublic`: user 2, who holds no
permission row on the public collection 5 owned by user 1, gets
`canView = false` (and no access at all). -/
theorem C2_counterexample :
    (findCollectionById c2db 5).map (·.isPublic) = some true ∧
    checkCollectionAccess c2db 5 2 = ⟨false, none, false, false⟩ := by
  constructor
  · rfl
  · rfl

/-- **C2, amended.**  For every existing public collection: the separate
`canViewCollection` check grants view access to every principal, the
anonymous one included; but the combined access check
`checkCollectionAccess` ignores `isPublic`, so a non-owner principal without
a permission row gets `canView = false` there. -/
theorem publicCollection_access (db : Db) (cid : Nat) (c : Collection)
    (hfind : findCollectionById db cid = some c) (hpub : c.isPublic = true) :
    (∀ uid : Option Nat, canViewCollection db cid uid = true) ∧
    (∀ uid : Nat, c.ownerId ≠ uid → getUserRole db cid uid = none →
      checkCollectionAccess db cid uid = ⟨false, none, false, false⟩) := by
  constructor
  · intro uid
    simp only [canViewCollection, hfind]
    rw [if_pos hpub]
  · intro uid hown hrole
    simp only [checkCollectionAccess, hfind]
    rw [if_neg (by simpa using hown), hrole]

/-- Witness for the amended C2 on a concrete public collection: anonymous and
logged-in strangers pass `canViewCollection`, while `checkCollectionAccess`
denies the stranger. -/
theorem publicCollection_access_witness :
    canViewCollection c2db 5 none = true ∧
    canViewCollection c2db 5 (some 2) = true ∧
    checkCollectionAccess c2db 5 2 = ⟨false, none, false, false⟩ := by
  have h := publicCollection_access c2db 5 ⟨5, 1, "C", "folder", true, some "s", 0⟩
    (by decide) (by decide)
  exact ⟨h.1 none, h.1 (some 2), h.2 2 (by decide) (by decide)⟩

/-! ## Claims C4 and C9: collection deletion -/

theorem getOrCreateUnsorted_bookmarks (db : Db) (owner : Nat) :
    (getOrCreateUnsortedCollection db owner).2.bookmarks = db.bookmarks := by
  cases hfc : db.collections.find? (fun c => c.ownerId == owner && c.title == "Unsorted") with
  | none => simp only [getOrCreateUnsortedCollection, hfc]
  | some u => simp only [getOrCreateUnsortedCollection, hfc]

theorem deleteCollection_bookmarks (db : Db) (id owner : Nat) :
    (deleteCollection db id owner).2.bookmarks = db.bookmarks := by
  cases hfc : findCollectionByIdAndOwner db id owner with
  | none => simp only [deleteCollection, hfc]
  | some c => simp only [deleteCollection, hfc]

theorem deleteCollection_find_none (db : Db) (id owner : Nat) :
    findCollectionByIdAndOwner (deleteCollection db id owner).2 id owner = none := by
  cases hfc : findCollectionByIdAndOwner db id owner with
  | none =>
    simp only [deleteCollection, hfc]
  | some c =>
    simp only [deleteCollection, hfc]
    simp only [findCollectionByIdAndOwner]
    apply List.find?_eq_none.mpr
    intro x hx
    have hne := (List.mem_filter.mp hx).2
    simp only [Bool.not_eq_eq_eq_not, Bool.not_true, beq_eq_false_iff_ne, ne_eq] at hne
    simp only [Bool.and_eq_true, beq_iff_eq, not_and]
    intro h1 _
    exact hne h1

/-- Reduction of `deleteCollectionForUser` on a found, non-`Unsorted`-titled
collection. -/
theorem deleteCollectionForUser_reduce (db : Db) (id owner : Nat) (c : Collection)
    (hfind : findCollectionByIdAndOwner db id owner = some c)
    (ht : ¬(c.title = "Unsorted")) :
    deleteCollectionForUser db id owner =
      ((⟨true, some (moveBookmarksToCollection (getOrCreateUnsortedCollection db owner).2
            id (getOrCreateUnsortedCollection db owner).1.id).1, none⟩ :
          DeleteCollectionResult),
        (deleteCollection
          (moveBookmarksToCollection (getOrCreateUnsortedCollection db owner).2
            id (getOrCreateUnsortedCollection db owner).1.id).2 id owner).2) := by
  simp only [deleteCollectionForUser, hfind]
  rw [if_neg (by simpa using ht)]

/-- Reduction of `deleteCollectionForUser` on a found collection titled
`Unsorted`. -/
theorem deleteCollectionForUser_reduce_unsorted (db : Db) (id owner : Nat)
    (c : Collection) (hfind : findCollectionByIdAndOwner db id owner = some c)
    (ht : c.title = "Unsorted") :
    deleteCollectionForUser db id owner =
      (⟨false, none, some "COLLECTION_CANNOT_DELETE_UNSORTED"⟩, db) := by
  simp only [deleteCollectionForUser, hfind]
  rw [if_pos (by simpa using ht)]

/-- **C4.**  Deleting an owned collection not titled `Unsorted` succeeds:
every one of its `N` bookmarks is reassigned to the owner's `Unsorted`
collection (the one `getOrCreateUnsortedCollection` finds or creates), no
bookmark is deleted, bookmarks of other collections are untouched, the
collection row is gone, and the reported moved count is `N`.  Deleting the
collection titled `Unsorted` always fails with `CANNOT_DELETE_UNSORTED` and
changes nothing. -/
theorem deleteCollectionForUser_spec (db : Db) (id owner : Nat) (c : Collection)
    (hfind : findCollectionByIdAndOwner db id owner = some c) :
    (c.title = "Unsorted" →
      deleteCollectionForUser db id owner =
        (⟨false, none, some "COLLECTION_CANNOT_DELETE_UNSORTED"⟩, db)) ∧
    (c.title ≠ "Unsorted" →
      (deleteCollectionForUser db id owner).1.success = true ∧
      (deleteCollectionForUser db id owner).1.movedBookmarks =
        some (db.bookmarks.filter (fun b => b.collectionId == id)).length ∧
      (deleteCollectionForUser db id owner).2.bookmarks.length = db.bookmarks.length ∧
      (∀ b ∈ db.bookmarks, b.collectionId = id →
        { b with collectionId := (getOrCreateUnsortedCollection db owner).1.id } ∈
          (deleteCollectionForUser db id owner).2.bookmarks) ∧
      (∀ b ∈ db.bookmarks, b.collectionId ≠ id →
        b ∈ (deleteCollectionForUser db id owner).2.bookmarks) ∧
      findCollectionByIdAndOwner (deleteCollectionForUser db id owner).2 id owner =
        none) := by
  constructor
  · intro ht
    exact deleteCollectionForUser_reduce_unsorted db id owner c hfind ht
  · intro ht
    rw [deleteCollectionForUser_reduce db id owner c hfind ht]
    refine ⟨rfl, ?_, ?_, ?_, ?_, deleteCollection_find_none _ _ _⟩
    · simp only [moveBookmarksToCollection, getOrCreateUnsorted_bookmarks]
    · rw [deleteCollection_bookmarks]
      simp [moveBookmarksToCollection, getOrCreateUnsorted_bookmarks]
    · intro b hb hbc
      rw [deleteCollection_bookmarks]
      simp only [moveBookmarksToCollection, getOrCreateUnsorted_bookmarks]
      exact List.mem_map.mpr ⟨b, hb, by simp [hbc]⟩
    · intro b hb hbc
      rw [deleteCollection_bookmarks]
      simp only [moveBookmarksToCollection, getOrCreateUnsorted_bookmarks]
      exact List.mem_map.mpr ⟨b, hb, by simp [hbc]⟩

/-- Witness for C4 at a concrete state: collection 5 (titled `Work`) holds
bookmarks 11 and 12; deleting it moves both and reports 2; deleting the
`Unsorted` collection 6 fails. -/
theorem deleteCollectionForUser_spec_witness :
    ((deleteCollectionForUser
        { users := [1],
          collections := [⟨5, 1, "Work", "folder", false, none, 1⟩,
            ⟨6, 1, "Unsorted", "inbox", false, none, 0⟩],
          bookmarks := [⟨11, 1, 5, "u", "n", "t", none, none, "d", "ARTICLE", none,
              false, false, 0⟩,
            ⟨12, 1, 5, "u2", "n2", "t2", none, none, "d", "ARTICLE", none,
              false, false, 0⟩],
          tags := [], bookmarkTags := [], permissions := [], nextId := 100 }
        5 1).1.movedBookmarks = some 2) ∧
    ((deleteCollectionForUser
        { users := [1],
          collections := [⟨5, 1, "Work", "folder", false, none, 1⟩,
            ⟨6, 1, "Unsorted", "inbox", false, none, 0⟩],
          bookmarks := [⟨11, 1, 5, "u", "n", "t", none, none, "d", "ARTICLE", none,
              false, false, 0⟩,
            ⟨12, 1, 5, "u2", "n2", "t2", none, none, "d", "ARTICLE", none,
              false, false, 0⟩],
          tags := [], bookmarkTags := [], permissions := [], nextId := 100 }
        5 1).2.bookmarks.length = 2) := by
  have h := (deleteCollectionForUser_spec
    { users := [1],
      collections := [⟨5, 1, "Work", "folder", false, none, 1⟩,
        ⟨6, 1, "Unsorted", "inbox", false, none, 0⟩],
      bookmarks := [⟨11, 1, 5, "u", "n", "t", none, none, "d", "ARTICLE", none,
          false, false, 0⟩,
        ⟨12, 1, 5, "u2", "n2", "t2", none, none, "d", "ARTICLE", none,
          false, false, 0⟩],
      tags := [], bookmarkTags := [], permissions := [], nextId := 100 }
    5 1 ⟨5, 1, "Work", "folder", false, none, 1⟩ (by decide)).2 (by decide)
  refine ⟨h.2.1.trans (by decide), h.2.2.1.trans (by decide)⟩

/-- **C9.**  The delete operation identifies the undeletable default
collection by its title alone: for every owned collection found by the
lookup, the operation fails with `CANNOT_DELETE_UNSORTED` exactly when that
collection's title is the string `Unsorted` — any other title is never
rejected for this reason. -/
theorem deleteCollection_default_by_title (db : Db) (id owner : Nat)
    (c : Collection) (hfind : findCollectionByIdAndOwner db id owner = some c) :
    ((deleteCollectionForUser db id owner).1.errorCode =
        some "COLLECTION_CANNOT_DELETE_UNSORTED" ↔ c.title = "Unsorted") := by
  by_cases ht : c.title = "Unsorted"
  · rw [deleteCollectionForUser_reduce_unsorted db id owner c hfind ht]
    simp [ht]
  · rw [deleteCollectionForUser_reduce db id owner c hfind ht]
    simp [ht]

/-- Witness for C9: a second, user-created collection titled `Unsorted`
(id 6, distinct from the first one the default-lookup returns, id 5) is
also refused; a `Work`-titled collection is not. -/
theorem deleteCollection_default_by_title_witness :
    ((deleteCollectionForUser
        { users := [1],
          collections := [⟨5, 1, "Unsorted", "inbox", false, none, 0⟩,
            ⟨6, 1, "Unsorted", "folder", false, none, 1⟩,
            ⟨7, 1, "Work", "folder", false, none, 2⟩],
          bookmarks := [], tags := [], bookmarkTags := [], permissions := [],
          nextId := 100 }
        6 1).1.errorCode = some "COLLECTION_CANNOT_DELETE_UNSORTED") ∧
    ¬((deleteCollectionForUser
        { users := [1],
          collections := [⟨5, 1, "Unsorted", "inbox", false, none, 0⟩,
            ⟨6, 1, "Unsorted", "folder", false, none, 1⟩,
            ⟨7, 1, "Work", "folder", false, none, 2⟩],
          bookmarks := [], tags := [], bookmarkTags := [], permissions := [],
          nextId := 100 }
        7 1).1.errorCode = some "COLLECTION_CANNOT_DELETE_UNSORTED") := by
  constructor
  · exact (deleteCollection_default_by_title
      { users := [1],
        collections := [⟨5, 1, "Unsorted", "inbox", false, none, 0⟩,
          ⟨6, 1, "Unsorted", "folder", false, none, 1⟩,
          ⟨7, 1, "Work", "folder", false, none, 2⟩],
        bookmarks := [], tags := [], bookmarkTags := [], permissions := [],
        nextId := 100 }
      6 1 ⟨6, 1, "Unsorted", "folder", false, none, 1⟩ (by decide)).mpr rfl
  · intro hcontra
    exact absurd ((deleteCollection_default_by_title
      { users := [1],
        collections := [⟨5, 1, "Unsorted", "inbox", false, none, 0⟩,
          ⟨6, 1, "Unsorted", "folder", false, none, 1⟩,
          ⟨7, 1, "Work", "folder", false, none, 2⟩],
        bookmarks := [], tags := [], bookmarkTags := [], permissions := [],
        nextId := 100 }
      7 1 ⟨7, 1, "Work", "folder", false, none, 2⟩ (by decide)).mp hcontra) (by decide)

/-! ## Claims C1 and C8: tag merging -/

/-- With fresh, pairwise-distinct rows, `createMany` with `skipDuplicates`
appends the whole batch. -/
theorem foldl_skipDup_append {acc pairs : List (Nat × Nat)}
    (hnew : ∀ p ∈ pairs, p ∉ acc) (hnd : pairs.Nodup) :
    pairs.foldl (fun a p => if a.contains p then a else a ++ [p]) acc =
      acc ++ pairs := by
  induction pairs generalizing acc with
  | nil => simp
  | cons p ps ih =>
    rw [List.foldl_cons, if_neg]
    · rw [ih ?_ (List.nodup_cons.mp hnd).2, List.append_assoc]
      · rfl
      · intro q hq
        rw [List.mem_append, List.mem_singleton]
        rintro (h1 | h2)
        · exact hnew q (List.mem_cons_of_mem p hq) h1
        · exact (List.nodup_cons.mp hnd).1 (h2 ▸ hq)
    · simp only [List.elem_iff]
      exact hnew p (List.mem_cons_self p ps)

theorem createManyBookmarkTags_append (db : Db) (pairs : List (Nat × Nat))
    (hnew : ∀ p ∈ pairs, p ∉ db.bookmarkTags) (hnd : pairs.Nodup) :
    createManyBookmarkTags db pairs =
      { db with bookmarkTags := db.bookmarkTags ++ pairs } := by
  rw [createManyBookmarkTags, foldl_skipDup_append hnew hnd]

/-- A bookmark id is in `getBookmarkIdsByTag` iff the association pair is a
row. -/
theorem mem_getBookmarkIdsByTag {db : Db} {t b : Nat} :
    b ∈ getBookmarkIdsByTag db t ↔ (b, t) ∈ db.bookmarkTags := by
  rw [getBookmarkIdsByTag]
  constructor
  · intro h
    obtain ⟨p, hp, hpb⟩ := List.mem_map.mp h
    have h2 := (List.mem_filter.mp hp).2
    have h3 : p.2 = t := by simpa using h2
    have : p = (b, t) := by
      rcases p with ⟨p1, p2⟩
      simp only at hpb h3
      rw [hpb, h3]
    exact this ▸ (List.mem_filter.mp hp).1
  · intro h
    exact List.mem_map.mpr ⟨(b, t), List.mem_filter.mpr ⟨h, by simp⟩, rfl⟩

/-- Uniqueness of association rows makes the per-tag bookmark lists
duplicate-free. -/
theorem nodup_getBookmarkIdsByTag {db : Db} (hnd : db.bookmarkTags.Nodup)
    (t : Nat) : (getBookmarkIdsByTag db t).Nodup := by
  apply List.Nodup.map_on ?_ (hnd.filter _)
  intro x hx y hy hxy
  have hx2 : x.2 = t := by simpa using (List.mem_filter.mp hx).2
  have hy2 : y.2 = t := by simpa using (List.mem_filter.mp hy).2
  rcases x with ⟨x1, x2⟩
  rcases y with ⟨y1, y2⟩
  simp only at hxy hx2 hy2
  rw [hxy, hx2, hy2]

/-- Reduction of a valid `mergeTagsForUser` call: the result reports
`affectedBookmarks = |source|`, and the state change is `createMany` of the
not-yet-linked source bookmarks followed by the cascade delete of the source
tag. -/
theorem mergeTagsForUser_reduce (db : Db) (src tgt owner : Nat)
    (stag ttag : Tag) (hne : ¬(src = tgt))
    (hs : findTagByIdAndOwner db src owner = some stag)
    (ht : findTagByIdAndOwner db tgt owner = some ttag) :
    mergeTagsForUser db src tgt owner =
      (⟨true, some (getBookmarkIdsByTag db src).length, none⟩,
        deleteTagCascade
          (createManyBookmarkTags db
            (((getBookmarkIdsByTag db src).filter
              (fun b => !((getBookmarkIdsByTag db tgt).contains b))).map
              (fun b => (b, tgt)))) src) := by
  have hif : ∀ (l : List Nat),
      (if l.length > 0 then
        createManyBookmarkTags db (l.map (fun b => (b, tgt))) else db) =
        createManyBookmarkTags db (l.map (fun b => (b, tgt))) := by
    intro l
    cases l with
    | nil => rfl
    | cons p ps => rw [if_pos (by simp)]
  simp only [mergeTagsForUser]
  rw [if_neg (by simpa using hne)]
  simp only [hs, ht, mergeTags, hif, if_true]

/-- **C1, counterexample.**  Claim: merge returns `|source ∪ target|`.  In a
state where the source tag 1 has the single bookmark 10 and the target tag 2
has the single disjoint bookmark 20, the union has two bookmarks, but the
merge reports `affectedBookmarks = 1` — the size of the source set alone. -/
theorem C1_counterexample :
    ((mergeTagsForUser
        { users := [1], collections := [], bookmarks := [],
          tags := [⟨1, 1, "a", "a", none⟩, ⟨2, 1, "b", "b", none⟩],
          bookmarkTags := [(10, 1), (20, 2)], permissions := [],
          nextId := 100 } 1 2 1).1.affectedBookmarks = some 1) ∧
    ((getBookmarkIdsByTag
        { users := [1], collections := [], bookmarks := [],
          tags := [⟨1, 1, "a", "a", none⟩, ⟨2, 1, "b", "b", none⟩],
          bookmarkTags := [(10, 1), (20, 2)], permissions := [],
          nextId := 100 } 1).toFinset ∪
      (getBookmarkIdsByTag
        { users := [1], collections := [], bookmarks := [],
          tags := [⟨1, 1, "a", "a", none⟩, ⟨2, 1, "b", "b", none⟩],
          bookmarkTags := [(10, 1), (20, 2)], permissions := [],
          nextId := 100 } 2).toFinset).card = 2 ∧ (1 : Nat) ≠ 2 := by
  refine ⟨rfl, ?_, by decide⟩
  decide

/-- **C1, amended.**  A successful tag merge reports
`affectedBookmarks = |source|`: the number of bookmarks associated with the
source tag before the mutation — the source-exclusive ones plus the shared
ones — not `|source ∪ target|`. -/
theorem mergeTags_affected_is_source_size (db : Db) (src tgt owner : Nat)
    (stag ttag : Tag) (hne : ¬(src = tgt))
    (hs : findTagByIdAndOwner db src owner = some stag)
    (ht : findTagByIdAndOwner db tgt owner = some ttag) :
    (mergeTagsForUser db src tgt owner).1.affectedBookmarks =
      some (getBookmarkIdsByTag db src).length ∧
    (getBookmarkIdsByTag db src).length =
      ((getBookmarkIdsByTag db src).filter
        (fun b => !((getBookmarkIdsByTag db tgt).contains b))).length +
      ((getBookmarkIdsByTag db src).filter
        (fun b => (getBookmarkIdsByTag db tgt).contains b)).length := by
  constructor
  · rw [mergeTagsForUser_reduce db src tgt owner stag ttag hne hs ht]
  · rw [Nat.add_comm,
      length_filter_add_length_filter_not (getBookmarkIdsByTag db src)
        (fun b => (getBookmarkIdsByTag db tgt).contains b)]

/-- Witness for the amended C1 in the two-disjoint-bookmarks state: the merge
reports 1 (= |source|), while the union has 2 bookmarks. -/
theorem mergeTags_affected_is_source_size_witness :
    ((mergeTagsForUser
        { users := [1], collections := [], bookmarks := [],
          tags := [⟨1, 1, "a", "a", none⟩, ⟨2, 1, "b", "b", none⟩],
          bookmarkTags := [(10, 1), (20, 2)], permissions := [],
          nextId := 100 } 1 2 1).1.affectedBookmarks = some 1) := by
  have h := (mergeTags_affected_is_source_size
    { users := [1], collections := [], bookmarks := [],
      tags := [⟨1, 1, "a", "a", none⟩, ⟨2, 1, "b", "b", none⟩],
      bookmarkTags := [(10, 1), (20, 2)], permissions := [],
      nextId := 100 } 1 2 1 ⟨1, 1, "a", "a", none⟩ ⟨2, 1, "b", "b", none⟩
    (by decide) (by decide) (by decide)).1
  exact h.trans (by decide)

/-- The target-tag id list after the merge's two mutations, as pure list
algebra: keep the old target rows and append the freshly linked ones. -/
theorem merged_target_ids (A : List (Nat × Nat)) (data : List Nat)
    (src tgt : Nat) (hne : ¬(tgt = src)) :
    (((A ++ data.map (fun b => (b, tgt))).filter
        (fun bt => !(bt.2 == src))).filter (fun bt => bt.2 == tgt)).map (·.1) =
      ((A.filter (fun bt => bt.2 == tgt)).map (·.1)) ++ data := by
  rw [List.filter_filter, List.filter_append, List.map_append]
  congr 1
  · congr 1
    apply List.filter_congr
    intro a _
    by_cases h : a.2 = tgt
    · simp [h, hne]
    · simp [h]
  · have h1 : (data.map (fun b => (b, tgt))).filter
        (fun a => a.2 == tgt && !(a.2 == src)) = data.map (fun b => (b, tgt)) := by
      apply List.filter_eq_self.mpr
      intro a ha
      obtain ⟨b, -, hb⟩ := List.mem_map.mp ha
      rw [← hb]
      simp [hne]
    rw [h1, List.map_map]
    show List.map (fun b => b) data = data
    exact List.map_id data

/-- **C8.**  After a successful merge of a source tag with `a` exclusive
bookmarks into a target tag with `b` exclusive and `c` shared bookmarks,
the target tag is associated with exactly the distinct bookmarks of the
union — `a + b + c` of them, with no duplicate association rows — and the
source tag (and all its association rows) no longer exists. -/
theorem mergeTags_post_state (db : Db) (src tgt owner : Nat) (stag ttag : Tag)
    (hne : ¬(src = tgt))
    (hs : findTagByIdAndOwner db src owner = some stag)
    (ht : findTagByIdAndOwner db tgt owner = some ttag)
    (hnd : db.bookmarkTags.Nodup) :
    (getBookmarkIdsByTag (mergeTagsForUser db src tgt owner).2 tgt).Nodup ∧
    (getBookmarkIdsByTag (mergeTagsForUser db src tgt owner).2 tgt).toFinset =
      (getBookmarkIdsByTag db src).toFinset ∪
        (getBookmarkIdsByTag db tgt).toFinset ∧
    (getBookmarkIdsByTag (mergeTagsForUser db src tgt owner).2 tgt).length =
      ((getBookmarkIdsByTag db src).filter
          (fun b => !((getBookmarkIdsByTag db tgt).contains b))).length +
        ((getBookmarkIdsByTag db tgt).filter
          (fun b => !((getBookmarkIdsByTag db src).contains b))).length +
        ((getBookmarkIdsByTag db tgt).filter
          (fun b => (getBookmarkIdsByTag db src).contains b)).length ∧
    findTagByIdAndOwner (mergeTagsForUser db src tgt owner).2 src owner = none ∧
    (mergeTagsForUser db src tgt owner).2.bookmarkTags.filter
      (fun bt => bt.2 == src) = [] := by
  have hSnd : (getBookmarkIdsByTag db src).Nodup := nodup_getBookmarkIdsByTag hnd src
  have hTnd : (getBookmarkIdsByTag db tgt).Nodup := nodup_getBookmarkIdsByTag hnd tgt
  have hdata_new : ∀ p ∈ ((getBookmarkIdsByTag db src).filter
      (fun b => !((getBookmarkIdsByTag db tgt).contains b))).map (fun b => (b, tgt)),
      p ∉ db.bookmarkTags := by
    intro p hp hmem
    obtain ⟨b, hb, hbp⟩ := List.mem_map.mp hp
    have hnotin := (List.mem_filter.mp hb).2
    simp at hnotin
    rw [← hbp] at hmem
    exact hnotin (mem_getBookmarkIdsByTag.mpr hmem)
  have hdata_nd : (((getBookmarkIdsByTag db src).filter
      (fun b => !((getBookmarkIdsByTag db tgt).contains b))).map
        (fun b => (b, tgt))).Nodup := by
    apply List.Nodup.map_on ?_ (hSnd.filter _)
    intro x _ y _ hxy
    exact congrArg Prod.fst hxy
  rw [mergeTagsForUser_reduce db src tgt owner stag ttag hne hs ht,
    createManyBookmarkTags_append db _ hdata_new hdata_nd]
  have hids : getBookmarkIdsByTag
      (deleteTagCascade
        { db with bookmarkTags := (db.bookmarkTags ++
            ((getBookmarkIdsByTag db src).filter
              (fun b => !((getBookmarkIdsByTag db tgt).contains b))).map
              (fun b => (b, tgt))) } src) tgt =
      getBookmarkIdsByTag db tgt ++
        (getBookmarkIdsByTag db src).filter
          (fun b => !((getBookmarkIdsByTag db tgt).contains b)) := by
    simp only [deleteTagCascade, getBookmarkIdsByTag]
    exact merged_target_ids db.bookmarkTags _ src tgt (fun h => hne h.symm)
  rw [hids]
  have hdisj : ∀ b ∈ (getBookmarkIdsByTag db src).filter
      (fun b => !((getBookmarkIdsByTag db tgt).contains b)),
      b ∉ getBookmarkIdsByTag db tgt := by
    intro b hb hmem
    have h2 := (List.mem_filter.mp hb).2
    simp at h2
    exact h2 hmem
  refine ⟨?_, ?_, ?_, ?_, ?_⟩
  · rw [List.nodup_append]
    exact ⟨hTnd, hSnd.filter _, fun b hb hb2 => hdisj b hb2 hb⟩
  · rw [List.toFinset_append]
    have hsd : ((getBookmarkIdsByTag db src).filter
        (fun b => !((getBookmarkIdsByTag db tgt).contains b))).toFinset =
        (getBookmarkIdsByTag db src).toFinset \
          (getBookmarkIdsByTag db tgt).toFinset := by
      rw [List.toFinset_filter, Finset.sdiff_eq_filter]
      apply Finset.filter_congr
      intro b _
      simp [List.elem_iff]
    rw [hsd, Finset.union_sdiff_self_eq_union, Finset.union_comm]
  · rw [List.length_append]
    have hsplit := length_filter_add_length_filter_not (getBookmarkIdsByTag db tgt)
      (fun b => (getBookmarkIdsByTag db src).contains b)
    omega
  · simp only [deleteTagCascade, findTagByIdAndOwner]
    apply List.find?_eq_none.mpr
    intro t htm
    have h2 := (List.mem_filter.mp htm).2
    simp only [Bool.not_eq_eq_eq_not, Bool.not_true, beq_eq_false_iff_ne, ne_eq] at h2
    simp only [Bool.and_eq_true, beq_iff_eq, not_and]
    intro h3 _
    exact h2 h3
  · simp only [deleteTagCascade, List.filter_filter]
    apply List.filter_eq_nil_iff.mpr
    intro p _
    by_cases h : p.2 = src <;> simp [h]

/-- Witness for C8: merging tag 1 (bookmarks 10, 30) into tag 2 (bookmarks
20, 30): the target ends with exactly {10, 20, 30} and tag 1 is gone. -/
theorem mergeTags_post_state_witness :
    ((getBookmarkIdsByTag (mergeTagsForUser
        { users := [1], collections := [], bookmarks := [],
          tags := [⟨1, 1, "a", "a", none⟩, ⟨2, 1, "b", "b", none⟩],
          bookmarkTags := [(10, 1), (30, 1), (20, 2), (30, 2)], permissions := [],
          nextId := 100 } 1 2 1).2 2).toFinset = ({10, 20, 30} : Finset Nat)) ∧
    (findTagByIdAndOwner (mergeTagsForUser
        { users := [1], collections := [], bookmarks := [],
          tags := [⟨1, 1, "a", "a", none⟩, ⟨2, 1, "b", "b", none⟩],
          bookmarkTags := [(10, 1), (30, 1), (20, 2), (30, 2)], permissions := [],
          nextId := 100 } 1 2 1).2 1 1 = none) := by
  have h := mergeTags_post_state
    { users := [1], collections := [], bookmarks := [],
      tags := [⟨1, 1, "a", "a", none⟩, ⟨2, 1, "b", "b", none⟩],
      bookmarkTags := [(10, 1), (30, 1), (20, 2), (30, 2)], permissions := [],
      nextId := 100 } 1 2 1 ⟨1, 1, "a", "a", none⟩ ⟨2, 1, "b", "b", none⟩
    (by decide) (by decide) (by decide) (by decide)
  refine ⟨h.2.1.trans (by decide), h.2.2.2.1⟩

/-! ## Claim C7: duplicate detection on bookmark creation -/

theorem getOrCreateTag_bookmarks (db : Db) (owner : Nat) (name nn : String) :
    (getOrCreateTag db owner name nn).2.bookmarks = db.bookmarks := by
  cases hfc : findTagByNormalizedName db nn owner with
  | none => simp only [getOrCreateTag, hfc, createTag]
  | some t => simp only [getOrCreateTag, hfc]

theorem getOrCreateTags_fold_bookmarks (owner : Nat) (names : List String) :
    ∀ (p : List Nat × Db),
      (names.foldl (fun acc name =>
        let (t, db') := getOrCreateTag acc.2 owner (jsTrim name) (normalizeTagName name)
        (acc.1 ++ [t.id], db')) p).2.bookmarks = p.2.bookmarks := by
  induction names with
  | nil => intro p; rfl
  | cons n ns ih =>
    intro p
    rw [List.foldl_cons, ih]
    show (getOrCreateTag p.2 owner (jsTrim n) (normalizeTagName n)).2.bookmarks =
      p.2.bookmarks
    exact getOrCreateTag_bookmarks _ _ _ _

theorem getOrCreateTags_bookmarks (db : Db) (owner : Nat) (names : List String) :
    (getOrCreateTags db owner names).2.bookmarks = db.bookmarks :=
  getOrCreateTags_fold_bookmarks owner names ([], db)

/-- The insertion tail of `createBookmarkForUser`: the returned result and
the new bookmarks table (tag handling never touches the bookmarks table). -/
theorem insertBookmarkWithTags_spec (db : Db) (owner : Nat)
    (dto : CreateBookmarkDTO) (cid : Nat) (rawUrl nu domain btype title : String)
    (dup : Bool) :
    (insertBookmarkWithTags db owner dto cid rawUrl nu domain btype title dup).1 =
      ⟨true, some ⟨db.nextId, owner, cid, rawUrl, nu, title, dto.excerpt,
        dto.coverUrl, domain, btype, dto.note, dup, false, 0⟩, none⟩ ∧
    (insertBookmarkWithTags db owner dto cid rawUrl nu domain btype title
        dup).2.bookmarks =
      db.bookmarks ++ [⟨db.nextId, owner, cid, rawUrl, nu, title, dto.excerpt,
        dto.coverUrl, domain, btype, dto.note, dup, false, 0⟩] := by
  cases htags : dto.tags with
  | none =>
    simp [insertBookmarkWithTags, htags]
  | some names =>
    simp only [insertBookmarkWithTags, htags]
    by_cases hlen : names.length > 0
    · rw [if_pos hlen]
      refine ⟨rfl, ?_⟩
      show (addTagsToBookmark _ _ _).bookmarks = _
      show (getOrCreateTags _ owner names).2.bookmarks = _
      rw [getOrCreateTags_bookmarks]
    · rw [if_neg hlen]
      exact ⟨rfl, rfl⟩

theorem getOrCreateDefaultCollection_bookmarks (db : Db) (owner : Nat) :
    (getOrCreateDefaultCollection db owner).2.bookmarks = db.bookmarks :=
  getOrCreateUnsorted_bookmarks db owner

/-- Reduction of `createBookmarkForUser` when no collection id is supplied. -/
theorem createBookmarkForUser_reduce (db : Db) (owner : Nat)
    (dto : CreateBookmarkDTO) (hc : dto.collectionId = none) :
    createBookmarkForUser db owner dto =
      insertBookmarkWithTags (getOrCreateDefaultCollection db owner).2 owner dto
        (getOrCreateDefaultCollection db owner).1 (serializeUrl dto.url)
        (serializeUrl (normalizeURL dto.url)) (extractDomain dto.url)
        (detectBookmarkType (serializeUrl dto.url))
        (if dto.title.getD "" == "" then extractMetadataTitle dto.url
          else dto.title.getD "")
        (decide ((findBookmarksByNormalizedUrl db
          (serializeUrl (normalizeURL dto.url)) owner).length > 0)) := by
  simp only [createBookmarkForUser, hc]

/-- **C7.**  Bookmark creation sets `isDuplicate` to `true` exactly when the
owner already has a bookmark with the same normalized URL; hence for two
URLs with equal normalizations, creating from the first in a state with no
such bookmark yields `isDuplicate = false` and creating from the second
immediately afterwards yields `isDuplicate = true`. -/
theorem createBookmark_duplicate_flag (db : Db) (owner : Nat)
    (dto1 dto2 : CreateBookmarkDTO)
    (hnorm : serializeUrl (normalizeURL dto1.url) = serializeUrl (normalizeURL dto2.url))
    (hc1 : dto1.collectionId = none) (hc2 : dto2.collectionId = none) :
    ((createBookmarkForUser db owner dto1).1.bookmark.map (·.isDuplicate) =
        some true ↔
      ∃ b ∈ db.bookmarks, b.normalizedUrl = serializeUrl (normalizeURL dto1.url) ∧
        b.ownerId = owner) ∧
    (findBookmarksByNormalizedUrl db (serializeUrl (normalizeURL dto1.url)) owner =
        [] →
      (createBookmarkForUser db owner dto1).1.bookmark.map (·.isDuplicate) =
          some false ∧
      (createBookmarkForUser (createBookmarkForUser db owner dto1).2 owner
          dto2).1.bookmark.map (·.isDuplicate) = some true) := by
  have hins1 := insertBookmarkWithTags_spec (getOrCreateDefaultCollection db owner).2
    owner dto1 (getOrCreateDefaultCollection db owner).1 (serializeUrl dto1.url)
    (serializeUrl (normalizeURL dto1.url)) (extractDomain dto1.url)
    (detectBookmarkType (serializeUrl dto1.url))
    (if dto1.title.getD "" == "" then extractMetadataTitle dto1.url
      else dto1.title.getD "")
    (decide ((findBookmarksByNormalizedUrl db
      (serializeUrl (normalizeURL dto1.url)) owner).length > 0))
  constructor
  · rw [createBookmarkForUser_reduce db owner dto1 hc1, hins1.1]
    simp only [Option.map_some', Option.some.injEq, decide_eq_true_eq]
    rw [findBookmarksByNormalizedUrl]
    constructor
    · intro h
      obtain ⟨b, hb⟩ := List.exists_mem_of_length_pos h
      have := List.mem_filter.mp hb
      refine ⟨b, this.1, ?_, ?_⟩
      · have := this.2
        simp only [Bool.and_eq_true, beq_iff_eq] at this
        exact this.1
      · have := this.2
        simp only [Bool.and_eq_true, beq_iff_eq] at this
        exact this.2
    · rintro ⟨b, hb, h1, h2⟩
      apply List.length_pos_of_mem (a := b)
      exact List.mem_filter.mpr ⟨hb, by simp [h1, h2]⟩
  · intro hfresh
    constructor
    · rw [createBookmarkForUser_reduce db owner dto1 hc1, hins1.1]
      simp [hfresh]
    · rw [createBookmarkForUser_reduce db owner dto1 hc1]
      rw [createBookmarkForUser_reduce _ owner dto2 hc2]
      rw [(insertBookmarkWithTags_spec _ _ _ _ _ _ _ _ _ _).1]
      simp only [Option.map_some', Option.some.injEq, decide_eq_true_eq]
      rw [findBookmarksByNormalizedUrl]
      apply List.length_pos_of_mem
        (a := ⟨(getOrCreateDefaultCollection db owner).2.nextId, owner,
          (getOrCreateDefaultCollection db owner).1, serializeUrl dto1.url,
          serializeUrl (normalizeURL dto1.url), (if dto1.title.getD "" == "" then
            extractMetadataTitle dto1.url else dto1.title.getD ""), dto1.excerpt,
          dto1.coverUrl, extractDomain dto1.url,
          detectBookmarkType (serializeUrl dto1.url), dto1.note,
          decide ((findBookmarksByNormalizedUrl db
            (serializeUrl (normalizeURL dto1.url)) owner).length > 0), false, 0⟩)
      apply List.mem_filter.mpr
      constructor
      · rw [hins1.2, getOrCreateDefaultCollection_bookmarks]
        exact List.mem_append_right _ (List.mem_singleton.mpr rfl)
      · simp [← hnorm]

/-- Witness for C7: the spec's own example pair —
`https://EXAMPLE.com:443/a/b/?utm_source=x&z=1` then
`https://example.com/a/b?z=1` — both normalize to
`https://example.com/a/b?z=1`; the first save is not a duplicate, the second
is. -/
theorem createBookmark_duplicate_flag_witness :
    ((createBookmarkForUser
        { users := [1], collections := [], bookmarks := [], tags := [],
          bookmarkTags := [], permissions := [], nextId := 100 } 1
        ⟨⟨"https:", "EXAMPLE.com", "443", "/a/b/", [("utm_source", "x"), ("z", "1")], ""⟩,
          some "T", none, none, none, none, none⟩).1.bookmark.map (·.isDuplicate) =
      some false) ∧
    ((createBookmarkForUser
        (createBookmarkForUser
          { users := [1], collections := [], bookmarks := [], tags := [],
            bookmarkTags := [], permissions := [], nextId := 100 } 1
          ⟨⟨"https:", "EXAMPLE.com", "443", "/a/b/", [("utm_source", "x"), ("z", "1")], ""⟩,
            some "T", none, none, none, none, none⟩).2 1
        ⟨⟨"https:", "example.com", "", "/a/b", [("z", "1")], ""⟩,
          some "T2", none, none, none, none, none⟩).1.bookmark.map (·.isDuplicate) =
      some true) := by
  have h := (createBookmark_duplicate_flag
    { users := [1], collections := [], bookmarks := [], tags := [],
      bookmarkTags := [], permissions := [], nextId := 100 } 1
    ⟨⟨"https:", "EXAMPLE.com", "443", "/a/b/", [("utm_source", "x"), ("z", "1")], ""⟩,
      some "T", none, none, none, none, none⟩
    ⟨⟨"https:", "example.com", "", "/a/b", [("z", "1")], ""⟩,
      some "T2", none, none, none, none, none⟩
    (by decide) rfl rfl).2 (by decide)
  exact h

/-! ## Claim C3: bulk operations — affected counts and the frame -/

/-- Cumulative effect of a whole order list on one bookmark row. -/
def applyOrders (ownerId : Nat) (os : List (Nat × Int)) (b : Bookmark) : Bookmark :=
  os.foldl (fun b' bo => orderUpd ownerId bo b') b

theorem orderUpd_id (ownerId : Nat) (bo : Nat × Int) (b : Bookmark) :
    (orderUpd ownerId bo b).id = b.id := by
  rw [orderUpd]; split <;> rfl

theorem orderUpd_ownerId (ownerId : Nat) (bo : Nat × Int) (b : Bookmark) :
    (orderUpd ownerId bo b).ownerId = b.ownerId := by
  rw [orderUpd]; split <;> rfl

theorem applyOrders_cons (ownerId : Nat) (bo : Nat × Int) (os : List (Nat × Int))
    (b : Bookmark) :
    applyOrders ownerId (bo :: os) b = applyOrders ownerId os (orderUpd ownerId bo b) := rfl

theorem applyOrders_of_not_mem (ownerId : Nat) (os : List (Nat × Int)) (b : Bookmark)
    (h : b.id ∉ os.map (·.1)) : applyOrders ownerId os b = b := by
  induction os with
  | nil => rfl
  | cons bo os ih =>
    rw [applyOrders_cons]
    have h' : ¬(b.id = bo.1 ∨ b.id ∈ os.map (·.1)) := by
      intro hc; exact h (by rw [List.map_cons, List.mem_cons]; exact hc)
    have hupd : orderUpd ownerId bo b = b := by
      rw [orderUpd]
      apply if_neg
      intro hc
      simp only [Bool.and_eq_true, beq_iff_eq] at hc
      exact h' (Or.inl hc.1)
    rw [hupd]
    exact ih (fun hm => h' (Or.inr hm))

theorem applyOrders_applied (ownerId : Nat) (os : List (Nat × Int))
    (hnd : (os.map (·.1)).Nodup) (b : Bookmark) (hown : b.ownerId = ownerId)
    (v : Int) (hmem : (b.id, v) ∈ os) :
    applyOrders ownerId os b = { b with sortOrder := v } := by
  induction os with
  | nil => cases hmem
  | cons bo os ih =>
    rw [List.map_cons, List.nodup_cons] at hnd
    rw [applyOrders_cons]
    rcases List.mem_cons.mp hmem with heq | hmem'
    · have h1 : bo.1 = b.id := by rw [← heq]
      have h2 : bo.2 = v := by rw [← heq]
      have hc : (b.id == bo.1 && b.ownerId == ownerId) = true := by
        simp [h1, hown]
      have hupd : orderUpd ownerId bo b = { b with sortOrder := v } := by
        rw [orderUpd, if_pos hc, h2]
      rw [hupd]
      apply applyOrders_of_not_mem
      show b.id ∉ os.map (·.1)
      rw [← h1]
      exact hnd.1
    · have hne : b.id ≠ bo.1 := by
        intro hc
        apply hnd.1
        rw [← hc]
        exact List.mem_map.mpr ⟨(b.id, v), hmem', rfl⟩
      have hupd : orderUpd ownerId bo b = b := by
        rw [orderUpd]
        apply if_neg
        intro hc
        simp only [Bool.and_eq_true, beq_iff_eq] at hc
        exact hne hc.1
      rw [hupd]
      exact ih hnd.2 hmem'

theorem filter_length_map_orderUpd (ownerId : Nat) (bo : Nat × Int) (k : Nat)
    (l : List Bookmark) :
    ((l.map (orderUpd ownerId bo)).filter
        (fun b => b.id == k && b.ownerId == ownerId)).length
      = (l.filter (fun b => b.id == k && b.ownerId == ownerId)).length := by
  rw [List.filter_map, List.length_map]
  congr 1
  apply List.filter_congr
  intro b _
  show ((orderUpd ownerId bo b).id == k && (orderUpd ownerId bo b).ownerId == ownerId) = _
  rw [orderUpd_id, orderUpd_ownerId]

theorem natFold_shift (c : Nat × Int → Nat) (os : List (Nat × Int)) :
    ∀ x : Nat, os.foldl (fun a bo => a + c bo) x
      = x + os.foldl (fun a bo => a + c bo) 0 := by
  induction os with
  | nil => intro x; simp
  | cons bo os ih =>
    intro x
    rw [List.foldl_cons, List.foldl_cons, ih (x + c bo), ih (0 + c bo)]
    omega

theorem sortFold_spec (ownerId : Nat) (os : List (Nat × Int)) :
    ∀ (k : Nat) (d : Db),
      (os.foldl (sortStep ownerId) (k, d)).1
          = k + os.foldl (fun a bo => a +
              (d.bookmarks.filter
                (fun b => b.id == bo.1 && b.ownerId == ownerId)).length) 0
        ∧ (os.foldl (sortStep ownerId) (k, d)).2.bookmarks
          = d.bookmarks.map (applyOrders ownerId os) := by
  induction os with
  | nil =>
    intro k d
    refine ⟨by simp, ?_⟩
    show d.bookmarks = d.bookmarks.map (applyOrders ownerId [])
    have h : ∀ l : List Bookmark, l.map (applyOrders ownerId []) = l := by
      intro l
      induction l with
      | nil => rfl
      | cons x l ihl => rw [List.map_cons, ihl]; rfl
    rw [h]
  | cons bo os ih =>
    intro k d
    rw [List.foldl_cons]
    have hstep : sortStep ownerId (k, d) bo
        = (k + (d.bookmarks.filter
            (fun b => b.id == bo.1 && b.ownerId == ownerId)).length,
          { d with bookmarks := d.bookmarks.map (orderUpd ownerId bo) }) := rfl
    rw [hstep]
    constructor
    · rw [(ih _ _).1]
      have hfix : (os.foldl (fun a bo' => a +
            ((({ d with bookmarks := d.bookmarks.map (orderUpd ownerId bo) } : Db)).bookmarks.filter
              (fun b => b.id == bo'.1 && b.ownerId == ownerId)).length) 0)
          = os.foldl (fun a bo' => a +
            (d.bookmarks.filter
              (fun b => b.id == bo'.1 && b.ownerId == ownerId)).length) 0 := by
        congr 1
        funext a bo'
        show a + ((d.bookmarks.map (orderUpd ownerId bo)).filter
            (fun b => b.id == bo'.1 && b.ownerId == ownerId)).length = _
        rw [filter_length_map_orderUpd]
      rw [hfix, List.foldl_cons, natFold_shift
        (fun bo' => (d.bookmarks.filter
          (fun b => b.id == bo'.1 && b.ownerId == ownerId)).length) os
        (0 + (d.bookmarks.filter
          (fun b => b.id == bo.1 && b.ownerId == ownerId)).length)]
      omega
    · rw [(ih _ _).2]
      show (d.bookmarks.map (orderUpd ownerId bo)).map (applyOrders ownerId os)
          = d.bookmarks.map (applyOrders ownerId (bo :: os))
      rw [List.map_map]
      congr 1

theorem bulkUpdateSortOrder_count (db : Db) (os : List (Nat × Int)) (ownerId : Nat) :
    (bulkUpdateSortOrder db os ownerId).1
      = os.foldl (fun a bo => a +
          (db.bookmarks.filter
            (fun b => b.id == bo.1 && b.ownerId == ownerId)).length) 0 := by
  rw [bulkUpdateSortOrder, (sortFold_spec ownerId os 0 db).1, Nat.zero_add]

theorem bulkUpdateSortOrder_bookmarks (db : Db) (os : List (Nat × Int)) (ownerId : Nat) :
    (bulkUpdateSortOrder db os ownerId).2.bookmarks
      = db.bookmarks.map (applyOrders ownerId os) := by
  rw [bulkUpdateSortOrder]
  exact (sortFold_spec ownerId os 0 db).2

theorem validIds_contains_false (db : Db) (ids : List Nat) (ownerId : Nat)
    (b : Bookmark) (hno : ids.contains b.id = false) :
    (((findBookmarksByIds db ids ownerId).map (·.id)).contains b.id) = false := by
  cases hc : ((findBookmarksByIds db ids ownerId).map (·.id)).contains b.id with
  | false => rfl
  | true =>
    exfalso
    obtain ⟨b', hb', hid⟩ := List.mem_map.mp (List.mem_of_elem_eq_true hc)
    rw [findBookmarksByIds, List.mem_filter, Bool.and_eq_true] at hb'
    have h1 := hb'.2.1
    rw [hid] at h1
    rw [h1] at hno
    exact absurd hno (by decide)

theorem findBookmarksByIds_refilter (db : Db) (ids : List Nat) (ownerId : Nat) :
    findBookmarksByIds db ((findBookmarksByIds db ids ownerId).map (·.id)) ownerId
      = findBookmarksByIds db ids ownerId := by
  conv_lhs => rw [findBookmarksByIds]
  conv_rhs => rw [findBookmarksByIds]
  apply List.filter_congr
  intro b hb
  cases how : b.ownerId == ownerId with
  | false => simp [how]
  | true =>
    simp only [how, Bool.and_true]
    cases hmem : ids.contains b.id with
    | true =>
      apply List.elem_eq_true_of_mem
      exact List.mem_map.mpr ⟨b,
        by rw [findBookmarksByIds]; exact List.mem_filter.mpr ⟨hb, by rw [hmem, how]; rfl⟩, rfl⟩
    | false =>
      exact validIds_contains_false db ids ownerId b hmem

theorem executeBulk_favorite_reduce (db : Db) (ownerId : Nat) (ids : List Nat)
    (p : Option BulkPayload) (hsel : findBookmarksByIds db ids ownerId ≠ []) :
    executeBulkOperation db ownerId ⟨ids, .favorite, p⟩
      = bulkSetFavorite db ownerId ((findBookmarksByIds db ids ownerId).map (·.id)) true := by
  have hlen : ((findBookmarksByIds db ids ownerId).length == 0) = false := by
    simp [List.length_eq_zero, hsel]
  simp only [executeBulkOperation, hlen, Bool.false_eq_true, if_false]

theorem executeBulk_reorder_reduce (db : Db) (ownerId : Nat) (ids : List Nat)
    (os : List (Nat × Int)) (hsel : findBookmarksByIds db ids ownerId ≠ [])
    (hos : os ≠ []) :
    executeBulkOperation db ownerId ⟨ids, .reorder, some ⟨none, none, none, some os⟩⟩
      = (⟨true, (bulkUpdateSortOrder db os ownerId).1, none⟩,
          (bulkUpdateSortOrder db os ownerId).2) := by
  have hlen : ((findBookmarksByIds db ids ownerId).length == 0) = false := by
    simp [List.length_eq_zero, hsel]
  have hoslen : (os.length == 0) = false := by
    simp [List.length_eq_zero, hos]
  simp only [executeBulkOperation, hlen, Bool.false_eq_true, if_false]
  simp only [Option.some_bind]
  simp only [bulkReorder, hoslen, Bool.false_eq_true, if_false]

/-- Concrete two-bookmark database for the C3 counterexample and witness:
bookmarks 11 and 12, both owned by user 1, both with sort order 0. -/
def c3db : Db :=
  { users := [1], collections := [],
    bookmarks :=
      [⟨11, 1, 1, "u1", "n1", "t1", none, none, "d", "link", none, false, false, 0⟩,
       ⟨12, 1, 1, "u2", "n2", "t2", none, none, "d", "link", none, false, false, 0⟩],
    tags := [], bookmarkTags := [], permissions := [], nextId := 100 }

/-- **C3, counterexample.**  The claim says a bulk operation applies only to
the ownership-filtered selection — in particular that the reorder action may
only apply pairs whose item is in that set — and leaves the other items
unchanged on the mutated field.  On the code, `bulkReorder` hands the raw
payload orders to the repository with no intersection against the selection:
selecting only bookmark 11 while sending the single pair `(12, 7)` reports
`affectedCount = 1` and sets the sort order of the unselected bookmark 12
to 7 (bookmark 11, the whole selection, is untouched). -/
theorem C3_counterexample :
    (¬ (12 : Nat) ∈ ([11] : List Nat)) ∧
    (executeBulkOperation c3db 1
        ⟨[11], .reorder, some ⟨none, none, none, some [(12, 7)]⟩⟩).1.affectedCount = 1 ∧
    ((executeBulkOperation c3db 1
        ⟨[11], .reorder, some ⟨none, none, none, some [(12, 7)]⟩⟩).2.bookmarks.map
      (fun b => (b.id, b.sortOrder))) = [(11, 0), (12, 7)] := by
  exact ⟨by decide, rfl, rfl⟩

/-- **C3, amended.**  For a non-empty ownership-filtered selection: the
`favorite` action (representative of the per-item actions) reports
`affectedCount` equal to the size of the ownership-filtered selection and
leaves every bookmark outside the requested id set in place unchanged.  The
`reorder` action, however, ignores the selection entirely: its
`affectedCount` is the number of `(id, sortOrder)` pair matches against the
caller's bookmarks computed over the raw payload, every owned bookmark named
by a pair gets that pair's sort order — whether or not it was selected — and
only bookmarks named by no pair are left unchanged. -/
theorem bulkOperation_count_and_frame (db : Db) (ownerId : Nat) (ids : List Nat)
    (p : Option BulkPayload) (os : List (Nat × Int))
    (hsel : findBookmarksByIds db ids ownerId ≠ [])
    (hos : os ≠ []) (hnd : (os.map (·.1)).Nodup) :
    ((executeBulkOperation db ownerId ⟨ids, .favorite, p⟩).1.affectedCount
        = (findBookmarksByIds db ids ownerId).length
      ∧ ∀ b ∈ db.bookmarks, ids.contains b.id = false →
          b ∈ (executeBulkOperation db ownerId ⟨ids, .favorite, p⟩).2.bookmarks)
    ∧ ((executeBulkOperation db ownerId
          ⟨ids, .reorder, some ⟨none, none, none, some os⟩⟩).1.affectedCount
        = os.foldl (fun a bo => a +
            (db.bookmarks.filter
              (fun b => b.id == bo.1 && b.ownerId == ownerId)).length) 0
      ∧ (∀ b ∈ db.bookmarks, b.ownerId = ownerId → ∀ v : Int, (b.id, v) ∈ os →
          { b with sortOrder := v } ∈ (executeBulkOperation db ownerId
            ⟨ids, .reorder, some ⟨none, none, none, some os⟩⟩).2.bookmarks)
      ∧ (∀ b ∈ db.bookmarks, b.id ∉ os.map (·.1) →
          b ∈ (executeBulkOperation db ownerId
            ⟨ids, .reorder, some ⟨none, none, none, some os⟩⟩).2.bookmarks)) := by
  rw [executeBulk_favorite_reduce db ownerId ids p hsel,
    executeBulk_reorder_reduce db ownerId ids os hsel hos]
  refine ⟨⟨?_, ?_⟩, ?_, ?_, ?_⟩
  · show (findBookmarksByIds db
        ((findBookmarksByIds db ids ownerId).map (·.id)) ownerId).length
      = (findBookmarksByIds db ids ownerId).length
    rw [findBookmarksByIds_refilter]
  · intro b hb hno
    apply List.mem_map.mpr
    refine ⟨b, hb, ?_⟩
    show (if (((findBookmarksByIds db ids ownerId).map (·.id)).contains b.id
        && b.ownerId == ownerId) = true then { b with isFavorite := true } else b) = b
    rw [validIds_contains_false db ids ownerId b hno, Bool.false_and]
    rfl
  · show (bulkUpdateSortOrder db os ownerId).1 = _
    exact bulkUpdateSortOrder_count db os ownerId
  · intro b hb hown v hv
    show { b with sortOrder := v } ∈ (bulkUpdateSortOrder db os ownerId).2.bookmarks
    rw [bulkUpdateSortOrder_bookmarks]
    exact List.mem_map.mpr ⟨b, hb, applyOrders_applied ownerId os hnd b hown v hv⟩
  · intro b hb hno
    show b ∈ (bulkUpdateSortOrder db os ownerId).2.bookmarks
    rw [bulkUpdateSortOrder_bookmarks]
    exact List.mem_map.mpr ⟨b, hb, applyOrders_of_not_mem ownerId os b hno⟩

/-- Witness for the amended C3: on `c3db` with selection `[11]` and order
list `[(12, 7)]` all three hypotheses hold, and the favorite action over the
selection reports an affected count equal to the selection's size. -/
theorem bulkOperation_count_and_frame_witness :
    (findBookmarksByIds c3db [11] 1 ≠ [] ∧ ([((12 : Nat), (7 : Int))] ≠ []) ∧
      (([((12 : Nat), (7 : Int))]).map (·.1)).Nodup) ∧
    (executeBulkOperation c3db 1 ⟨[11], .favorite, none⟩).1.affectedCount
      = (findBookmarksByIds c3db [11] 1).length := by
  refine ⟨⟨by decide, by decide, by decide⟩, ?_⟩
  exact (bulkOperation_count_and_frame c3db 1 [11] none [(12, 7)]
    (by decide) (by decide) (by decide)).1.1

end Booky
